import Mathlib

/-!
# Formal model of the nmapthon2 core (`utils.py`, `elements.py`, `engine.py`,
# `scanner.py`, `parser.py`)

A shallow embedding of the parts of the library that the specification's
claims are about, together with proofs settling each claim.

Modelling conventions:

* Python strings are modelled as `List Char`; `str.split(sep)` is `pySplit`,
  `str.replace(' ', '')` is `List.filter (· ≠ ' ')`, `str(n)` for an `int`
  is `pyStrOfInt`, and `int(s)` is `pyIntOfChars` (which models CPython's
  behaviour on whitespace-free ASCII strings: an optional sign followed by a
  nonempty run of decimal digits; every string these functions are applied
  to is of that shape).
* Python `int` is `Int`; `range(a, b)` is `intRange a b`.
* Exceptions are modelled with `Except`: the port/target utilities raise a
  single exception type apiece, so they return `Except String α` where the
  `String` is the exception message; the engine / scanner / parser layers
  distinguish exception *classes* (`KeyError` vs others), so they return
  `Except PyExc α`.
* Python `dict`s (insertion ordered) are association lists with unique keys;
  `d[k] = v` is `dictSet`, lookup is `List.lookup`.
* `sorted(list(set(xs)))` is `sortedUnique`.  CPython's `set` iteration
  order is unspecified; the model uses `List.dedup` (first occurrences).
  Every place the source consumes such a list it either sorts it first or
  only uses order-independent facts, so this choice is immaterial.
-/

/-- Python exception classes distinguished by the modelled code. -/
inductive PyExc where
  | keyError (key : String)
  | typeError (msg : String)
  | attributeError (msg : String)
  | runtimeError (msg : String)
  | valueError (msg : String)
  | xmlParsingError (msg : String)
  | stopExecution
  deriving DecidableEq

instance {ε : Type u} {α : Type v} [DecidableEq ε] [DecidableEq α] :
    DecidableEq (Except ε α) := fun a b =>
  match a, b with
  | .error e, .error f =>
    if h : e = f then isTrue (by rw [h]) else isFalse (fun hc => h (by injection hc))
  | .error _, .ok _ => isFalse (fun hc => Except.noConfusion hc)
  | .ok _, .error _ => isFalse (fun hc => Except.noConfusion hc)
  | .ok x, .ok y =>
    if h : x = y then isTrue (by rw [h]) else isFalse (fun hc => h (by injection hc))

/-- Python `str.split(sep)` for a one-character separator: always returns at
least one (possibly empty) part; `"".split(c) == [""]`. -/
def pySplit (sep : Char) : List Char → List (List Char)
  | [] => [[]]
  | c :: rest =>
    if c = sep then [] :: pySplit sep rest
    else
      match pySplit sep rest with
      | [] => [[c]]
      | t :: ts => (c :: t) :: ts

/-- Joining with a one-character separator (the inverse of `pySplit` on
separator-free parts); models the concatenation the rendering loops build. -/
def joinSep (sep : Char) : List (List Char) → List Char
  | [] => []
  | [t] => t
  | t :: ts => t ++ sep :: joinSep sep ts

theorem pySplit_ne_nil (sep : Char) (s : List Char) : pySplit sep s ≠ [] := by
  cases s with
  | nil => simp [pySplit]
  | cons c rest =>
    simp only [pySplit]
    split
    · simp
    · split <;> simp

theorem pySplit_of_not_mem {sep : Char} {s : List Char} (h : sep ∉ s) :
    pySplit sep s = [s] := by
  induction s with
  | nil => rfl
  | cons c rest ih =>
    simp only [List.mem_cons, not_or] at h
    simp only [pySplit, if_neg (Ne.symm h.1), ih h.2]

theorem pySplit_append {sep : Char} {a : List Char} (b : List Char)
    (h : sep ∉ a) : pySplit sep (a ++ sep :: b) = a :: pySplit sep b := by
  induction a with
  | nil => simp [pySplit]
  | cons c rest ih =>
    simp only [List.mem_cons, not_or] at h
    simp only [List.cons_append, pySplit, if_neg (Ne.symm h.1)]
    rw [List.append_eq, ih h.2]

theorem pySplit_joinSep {sep : Char} :
    ∀ {ts : List (List Char)}, ts ≠ [] → (∀ t ∈ ts, sep ∉ t) →
      pySplit sep (joinSep sep ts) = ts
  | [], h, _ => absurd rfl h
  | [t], _, hmem => by
      simp only [joinSep]
      exact pySplit_of_not_mem (hmem t (by simp))
  | t :: t' :: ts, _, hmem => by
      simp only [joinSep]
      rw [pySplit_append _ (hmem t (by simp))]
      congr 1
      exact pySplit_joinSep (by simp) (fun u hu => hmem u (List.mem_cons_of_mem t hu))

/-- The ASCII digit character for `n < 10`. -/
def digitChar (n : Nat) : Char := Char.ofNat (48 + n)

def isDigitChar (c : Char) : Bool := 48 ≤ c.toNat && c.toNat ≤ 57

/-- Decimal digits of a natural number, most significant first (fuelled so
that the definition is structural and kernel-computable). -/
def natDigitsAux : Nat → Nat → List Char
  | 0, _ => []
  | fuel + 1, n =>
    if n < 10 then [digitChar n]
    else natDigitsAux fuel (n / 10) ++ [digitChar (n % 10)]

/-- The decimal representation of a natural number, as Python's `str`
produces it (no sign, no leading zeros except for `0` itself). -/
def natDigits (n : Nat) : List Char := natDigitsAux (n + 1) n

theorem natDigitsAux_stable : ∀ f₁ f₂ n, n < f₁ → n < f₂ →
    natDigitsAux f₁ n = natDigitsAux f₂ n := by
  intro f₁
  induction f₁ with
  | zero => intro f₂ n h; omega
  | succ f ih =>
    intro f₂ n h₁ h₂
    cases f₂ with
    | zero => omega
    | succ f' =>
      simp only [natDigitsAux]
      split
      · rfl
      · have hn : 10 ≤ n := by omega
        have hd : n / 10 < n := Nat.div_lt_self (by omega) (by omega)
        rw [ih f' (n / 10) (by omega) (by omega)]

/-- Unfolding equation for `natDigits`. -/
theorem natDigits_eq (n : Nat) :
    natDigits n = if n < 10 then [digitChar n]
                  else natDigits (n / 10) ++ [digitChar (n % 10)] := by
  show natDigitsAux (n + 1) n = _
  rw [natDigitsAux]
  split
  · rfl
  · have hn : 10 ≤ n := by omega
    rw [natDigitsAux_stable n (n / 10 + 1) (n / 10)
      (Nat.div_lt_self (by omega) (by omega)) (Nat.lt_succ_self _)]
    rfl

theorem natDigits_ne_nil (n : Nat) : natDigits n ≠ [] := by
  rw [natDigits_eq]
  split <;> simp

theorem digitChar_isDigit {d : Nat} (h : d < 10) : isDigitChar (digitChar d) = true := by
  interval_cases d <;> decide

theorem natDigits_all_digit (n : Nat) : ∀ c ∈ natDigits n, isDigitChar c = true := by
  induction n using Nat.strong_induction_on with
  | _ n ih =>
    rw [natDigits_eq]
    split
    · next h => intro c hc; simp at hc; subst hc; exact digitChar_isDigit h
    · next h =>
      intro c hc
      simp only [List.mem_append, List.mem_singleton] at hc
      rcases hc with hc | hc
      · exact ih (n / 10) (Nat.div_lt_self (by omega) (by omega)) c hc
      · subst hc; exact digitChar_isDigit (Nat.mod_lt _ (by omega))

theorem isDigitChar_ne {c : Char} (h : isDigitChar c = true) :
    c ≠ '-' ∧ c ≠ '+' ∧ c ≠ ',' ∧ c ≠ '.' ∧ c ≠ '/' ∧ c ≠ ' ' := by
  refine ⟨?_, ?_, ?_, ?_, ?_, ?_⟩ <;>
    (intro hc; subst hc; exact absurd h (by decide))

/-- Numeric value of a digit string (leftmost digit most significant). -/
def digitsVal (l : List Char) : Nat := l.foldl (fun acc c => acc * 10 + (c.toNat - 48)) 0

/-- Python `int(s)` on a whitespace-free string: optional sign, then a
nonempty run of ASCII decimal digits; `none` models the `ValueError`. -/
def pyIntOfChars (s : List Char) : Option Int :=
  match s with
  | [] => none
  | c :: rest =>
    if c = '-' then
      if rest ≠ [] ∧ rest.all isDigitChar then some (-(digitsVal rest : Int)) else none
    else if c = '+' then
      if rest ≠ [] ∧ rest.all isDigitChar then some ((digitsVal rest : Int)) else none
    else
      if (c :: rest).all isDigitChar then some ((digitsVal (c :: rest) : Int)) else none

theorem digitsVal_append (a : List Char) (c : Char) :
    digitsVal (a ++ [c]) = digitsVal a * 10 + (c.toNat - 48) := by
  simp [digitsVal, List.foldl_append]

theorem digitChar_toNat {d : Nat} (h : d < 10) : (digitChar d).toNat = 48 + d := by
  interval_cases d <;> decide

theorem digitsVal_natDigits (n : Nat) : digitsVal (natDigits n) = n := by
  induction n using Nat.strong_induction_on with
  | _ n ih =>
    rw [natDigits_eq]
    split
    · next h =>
      show digitsVal [digitChar n] = n
      simp [digitsVal, digitChar_toNat h]
    · next h =>
      rw [digitsVal_append, ih (n / 10) (Nat.div_lt_self (by omega) (by omega)),
        digitChar_toNat (Nat.mod_lt _ (by omega))]
      omega

/-- `pyIntOfChars` on a nonempty all-digit string returns its value. -/
theorem pyIntOfChars_digits {s : List Char} (hne : s ≠ [])
    (hall : s.all isDigitChar = true) : pyIntOfChars s = some ((digitsVal s : Int)) := by
  cases s with
  | nil => exact absurd rfl hne
  | cons c rest =>
    have hc : isDigitChar c = true := by
      have := List.all_eq_true.mp hall c (by simp)
      simpa using this
    have hcn := isDigitChar_ne hc
    simp only [pyIntOfChars, if_neg hcn.1, if_neg hcn.2.1, if_pos hall]

theorem pyIntOfChars_natDigits (n : Nat) : pyIntOfChars (natDigits n) = some (n : Int) := by
  rw [pyIntOfChars_digits (natDigits_ne_nil n)
    (List.all_eq_true.mpr (fun c hc => by simpa using natDigits_all_digit n c hc)),
    digitsVal_natDigits]

/-! ## `utils.py` — port range algebra -/

/-- `utils.valid_port`: a port is valid iff strictly between 0 and 65536.
(The source accepts `str` or `int` and converts; every call site in the
modelled code passes an `int`, for which `int(port)` is the identity.) -/
def valid_port (port : Int) : Bool := 0 < port && port < 65536

/-- Python `range(a, b)` over integers, as a list. -/
def intRange (a b : Int) : List Int :=
  (List.range (b - a).toNat).map (fun (k : Nat) => a + (k : Int))

/-- The `for single_port in range(...)` loop body of `utils.ports_to_list`:
every port of the range is appended if valid, otherwise an
`InvalidPortError` is raised (discarding the whole parse). -/
def checkPortRange : List Int → Except String (List Int)
  | [] => .ok []
  | p :: rest =>
    if valid_port p then
      match checkPortRange rest with
      | .ok r => .ok (p :: r)
      | .error e => .error e
    else .error (toString p ++ " is not a valid port")

/-- One comma-separated term of `utils.ports_to_list` (the body of the
`for split_ports in ports_string.split(',')` loop).  When `'-'` occurs in
the term, `split('-')` always yields at least two parts, so the source's
`IndexError` branch ("End of port range not specified") is unreachable;
it is kept as the fallback of the match. -/
def parsePortTerm (split_ports : List Char) : Except String (List Int) :=
  if '-' ∈ split_ports then
    match pySplit '-' split_ports with
    | t1 :: t2 :: _ =>
      match pyIntOfChars t1 with
      | none => .error "Invalid starting port range"
      | some first_port_range =>
        match pyIntOfChars t2 with
        | none => .error "Invalid ending port range"
        | some last_port_range => checkPortRange (intRange first_port_range (last_port_range + 1))
    | _ => .error "End of port range not specified"
  else
    if split_ports = [] then .ok []
    else
      match pyIntOfChars split_ports with
      | none => .error "Invalid port"
      | some p => if valid_port p then .ok [p] else .error (toString p ++ " is not a valid port.")

/-- The comma-term loop of `utils.ports_to_list`: terms are processed left
to right, appending their ports; the first failing term aborts the parse. -/
def portTermsLoop : List (List Char) → Except String (List Int)
  | [] => .ok []
  | t :: ts =>
    match parsePortTerm t with
    | .error e => .error e
    | .ok l =>
      match portTermsLoop ts with
      | .error e => .error e
      | .ok r => .ok (l ++ r)

/-- Python `sorted(list(set(xs)))`: ascending and duplicate-free. -/
def sortedUnique (l : List Int) : List Int := l.dedup.insertionSort (· ≤ ·)

/-- `utils.ports_to_list`: strip blanks, split on commas, parse each term,
return the sorted duplicate-free port list. -/
def ports_to_list (ports : List Char) : Except String (List Int) :=
  match portTermsLoop (pySplit ',' (ports.filter (fun c => c != ' '))) with
  | .error e => .error e
  | .ok port_list => .ok (sortedUnique port_list)

/-- Python `str(i)` for an `int`. -/
def pyStrOfInt (i : Int) : List Char :=
  if i < 0 then '-' :: natDigits (-i).toNat else natDigits i.toNat

/-- The `for i in list(map(ports_to_list, port_list))` loop of
`utils.extend_port_list`. -/
def extendLoop : List (List Char) → Except String (List Int)
  | [] => .ok []
  | s :: rest =>
    match ports_to_list s with
    | .error e => .error e
    | .ok l =>
      match extendLoop rest with
      | .error e => .error e
      | .ok r => .ok (l ++ r)

/-- `utils.extend_port_list`: stringify every entry, parse each through
`ports_to_list`, concatenate, and drop duplicates (`list(set(...))`). -/
def extend_port_list (port_list : List Int) : Except String (List Int) :=
  match extendLoop (port_list.map pyStrOfInt) with
  | .error e => .error e
  | .ok all => .ok all.dedup

/-- The `while i < len(sorted_ports)` loop of `utils.ports_to_str`,
restructured as a recursion over the remaining list with the `last_port`
variable as parameter.  The source writes `'-'` when it *detects* a run
(second consecutive element) and the run's end when the inner `while`
exits; since nothing is emitted for the elements in between, emitting
`'-'` together with the run's end (third branch below) produces the same
string, and lets the recursion stay structural. -/
def portsLoop (last_port : Int) : List Int → List Char
  | [] => []
  | p :: rest =>
    if p ≠ last_port + 1 then
      -- first branch of the source loop: write the port, and a comma
      -- unless it is the last element or the next element is consecutive
      pyStrOfInt p ++
        (if rest ≠ [] ∧ rest.head? ≠ some (p + 1) then [','] else []) ++
        portsLoop p rest
    else
      if rest.head? = some (p + 1) then
        -- inside a run: the source's inner `while` consumes this element
        portsLoop p rest
      else
        -- run ends here: the source wrote `'-'` at the run's start and
        -- writes the run's end and an optional comma now
        '-' :: (pyStrOfInt p ++ (if rest ≠ [] then [','] else []) ++ portsLoop p rest)

/-- `utils.ports_to_str`: extend/deduplicate, validate, sort ascending and
render with the run-collapsing loop (whose `last_port` starts at `-2`). -/
def ports_to_str (port_list : List Int) : Except String (List Char) :=
  match extend_port_list port_list with
  | .error e => .error e
  | .ok new_port_list =>
    if ¬ (new_port_list.all valid_port) then
      .error "Ports must be between 0 and 65536"
    else
      .ok (portsLoop (-2) (new_port_list.insertionSort (· ≤ ·)))

/-- Spec-side description of the canonical rendering: the maximal runs of
consecutive values of a list, produced by merging from the right. -/
def runsOf : List Int → List (Int × Int)
  | [] => []
  | p :: rest =>
    match runsOf rest with
    | [] => [(p, p)]
    | (s, e) :: gs => if s = p + 1 then (p, e) :: gs else (p, p) :: (s, e) :: gs

/-- Spec-side rendering of one maximal run: singletons individually, runs
of length at least two as a single `start-end` term. -/
def runStr (r : Int × Int) : List Char :=
  if r.1 = r.2 then pyStrOfInt r.1 else pyStrOfInt r.1 ++ '-' :: pyStrOfInt r.2

/-- Spec-side canonical form: the runs' terms joined with commas. -/
def canonicalRender (l : List Int) : List Char := joinSep ',' ((runsOf l).map runStr)

example : ports_to_list ("80, 81-83".data) = .ok [80, 81, 82, 83] := by decide
example : ports_to_list ("30-10".data) = .ok [] := by decide
example : ports_to_str [3, 1, 2, 2, 7] = .ok ("1-3,7".data) := by decide
example : canonicalRender [1, 2, 3, 7] = "1-3,7".data := by decide

/-! ### Facts about the port algebra -/

theorem checkPortRange_ok {l : List Int} (h : ∀ p ∈ l, valid_port p = true) :
    checkPortRange l = .ok l := by
  induction l with
  | nil => rfl
  | cons p rest ih =>
    simp only [checkPortRange, if_pos (h p (by simp)),
      ih (fun q hq => h q (List.mem_cons_of_mem p hq))]

theorem intRange_eq_nil {a b : Int} (h : b ≤ a) : intRange a b = [] := by
  simp only [intRange]
  rw [Int.toNat_of_nonpos (by omega)]
  rfl

theorem intRange_cons {a b : Int} (h : a < b) :
    intRange a b = a :: intRange (a + 1) b := by
  simp only [intRange]
  have h1 : (b - a).toNat = (b - (a + 1)).toNat + 1 := by omega
  rw [h1, List.range_succ_eq_map, List.map_cons, List.map_map]
  congr 1
  · simp
  · apply List.map_congr_left
    intro k _
    simp only [Function.comp_apply]
    push_cast
    ring

theorem mem_intRange {a b x : Int} : x ∈ intRange a b ↔ a ≤ x ∧ x < b := by
  simp only [intRange, List.mem_map, List.mem_range]
  constructor
  · rintro ⟨k, hk, rfl⟩
    omega
  · rintro ⟨h1, h2⟩
    exact ⟨(x - a).toNat, by omega, by omega⟩

theorem pyStrOfInt_nonneg {p : Int} (h : 0 ≤ p) : pyStrOfInt p = natDigits p.toNat := by
  simp only [pyStrOfInt, if_neg (by omega : ¬ p < 0)]

theorem pyStrOfInt_all_digit {p : Int} (h : 0 ≤ p) :
    ∀ c ∈ pyStrOfInt p, isDigitChar c = true := by
  rw [pyStrOfInt_nonneg h]
  exact natDigits_all_digit _

theorem pyIntOfChars_pyStrOfInt {p : Int} (h : 0 ≤ p) :
    pyIntOfChars (pyStrOfInt p) = some p := by
  rw [pyStrOfInt_nonneg h, pyIntOfChars_natDigits, Int.toNat_of_nonneg h]

/-- A run term (`"n"` or `"n-m"`, both numbers nonnegative) contains only
digits and dashes. -/
theorem runStr_chars {r : Int × Int} (h1 : 0 ≤ r.1) (h2 : 0 ≤ r.2) :
    ∀ c ∈ runStr r, isDigitChar c = true ∨ c = '-' := by
  simp only [runStr]
  split
  · intro c hc; exact Or.inl (pyStrOfInt_all_digit h1 c hc)
  · intro c hc
    simp only [List.mem_append, List.mem_cons] at hc
    rcases hc with hc | hc | hc
    · exact Or.inl (pyStrOfInt_all_digit h1 c hc)
    · exact Or.inr hc
    · exact Or.inl (pyStrOfInt_all_digit h2 c hc)

theorem mem_joinSep {sep : Char} {c : Char} :
    ∀ {ts : List (List Char)}, c ∈ joinSep sep ts → c = sep ∨ ∃ t ∈ ts, c ∈ t
  | [], h => by simp [joinSep] at h
  | [t], h => Or.inr ⟨t, by simp, by simpa [joinSep] using h⟩
  | t :: t' :: ts, h => by
      simp only [joinSep, List.mem_append, List.mem_cons] at h
      rcases h with h | h | h
      · exact Or.inr ⟨t, by simp, h⟩
      · exact Or.inl h
      · rcases mem_joinSep h with h | ⟨u, hu, hcu⟩
        · exact Or.inl h
        · exact Or.inr ⟨u, List.mem_cons_of_mem t hu, hcu⟩

/-- The first run of `runsOf` starts at the list's head and is increasing. -/
theorem runsOf_head : ∀ {t : List Int} {s e : Int} {gs : List (Int × Int)},
    runsOf t = (s, e) :: gs → t.head? = some s ∧ s ≤ e := by
  intro t
  induction t with
  | nil => intro s e gs h; simp [runsOf] at h
  | cons x t' ih =>
    intro s e gs h
    simp only [runsOf] at h
    cases hr : runsOf t' with
    | nil => rw [hr] at h; simp at h; obtain ⟨⟨h1, h2⟩, _⟩ := h; subst h1; subst h2; simp
    | cons r gs' =>
      obtain ⟨s', e'⟩ := r
      rw [hr] at h
      simp only at h
      split at h
      · next heq =>
        obtain ⟨h1, h2⟩ := List.cons.injEq _ _ _ _ ▸ h
        obtain ⟨hs, he⟩ := Prod.mk.injEq _ _ _ _ ▸ h1
        have := (ih hr).2
        subst hs; subst he
        exact ⟨rfl, by omega⟩
      · obtain ⟨h1, h2⟩ := List.cons.injEq _ _ _ _ ▸ h
        obtain ⟨hs, he⟩ := Prod.mk.injEq _ _ _ _ ▸ h1
        subst hs; subst he
        exact ⟨rfl, le_refl _⟩

theorem runsOf_eq_nil_iff {t : List Int} : runsOf t = [] ↔ t = [] := by
  cases t with
  | nil => simp [runsOf]
  | cons x t' =>
    simp only [runsOf]
    constructor
    · intro h
      cases hr : runsOf t' with
      | nil => rw [hr] at h; simp at h
      | cons r gs => obtain ⟨s, e⟩ := r; rw [hr] at h; simp only at h; split at h <;> simp at h
    · intro h; cases h

/-- Every run of a list expands (inclusively) to a contiguous slice, and the
concatenation of all the expansions gives back the list. -/
theorem runsOf_expand : ∀ l : List Int,
    ((runsOf l).map (fun r => intRange r.1 (r.2 + 1))).flatten = l := by
  intro l
  induction l with
  | nil => rfl
  | cons x t ih =>
    cases hr : runsOf t with
    | nil =>
      have ht : t = [] := runsOf_eq_nil_iff.mp hr
      subst ht
      have hx : runsOf [x] = [(x, x)] := rfl
      rw [hx]
      simp only [List.map_cons, List.map_nil, List.flatten_cons, List.flatten_nil,
        List.append_nil]
      rw [intRange_cons (by omega), intRange_eq_nil (by omega)]
    | cons r gs =>
      obtain ⟨s, e⟩ := r
      obtain ⟨hhead, hle⟩ := runsOf_head hr
      rw [hr] at ih
      have hx : runsOf (x :: t) =
          if s = x + 1 then (x, e) :: gs else (x, x) :: (s, e) :: gs := by
        simp only [runsOf]
        rw [hr]
      rw [hx]
      split
      · next heq =>
        subst heq
        simp only [List.map_cons, List.flatten_cons] at ih ⊢
        rw [intRange_cons (by omega), List.cons_append, ih]
      · simp only [List.map_cons, List.flatten_cons] at ih ⊢
        rw [intRange_cons (by omega), intRange_eq_nil (by omega), ih]
        rfl

/-- Definitional unfolding of `runsOf` on a cons cell. -/
theorem runsOf_cons (x : Int) (t : List Int) :
    runsOf (x :: t) =
      match runsOf t with
      | [] => [(x, x)]
      | (s, e) :: gs => if s = x + 1 then (x, e) :: gs else (x, x) :: (s, e) :: gs := rfl

theorem runsOf_cons_ex (x : Int) (t : List Int) :
    ∃ e gs, runsOf (x :: t) = (x, e) :: gs := by
  cases hr : runsOf t with
  | nil => exact ⟨x, [], by rw [runsOf_cons, hr]⟩
  | cons r gs =>
    obtain ⟨s, e⟩ := r
    by_cases hmerge : s = x + 1
    · exact ⟨e, gs, by rw [runsOf_cons, hr]; simp [hmerge]⟩
    · exact ⟨x, (s, e) :: gs, by rw [runsOf_cons, hr]; simp [hmerge]⟩

/-- The run-continuation part of the rendered string: dash, end of the run,
and the remaining runs if any. -/
def tailRender (e : Int) (gs : List (Int × Int)) : List Char :=
  '-' :: (pyStrOfInt e ++ (if gs = [] then [] else ',' :: joinSep ',' (gs.map runStr)))

/-- The `ports_to_str` loop produces exactly the canonical comma/dash form
described by `runsOf`: part one handles a loop state where the next element
does not continue a run, part two a state inside a run. -/
theorem portsLoop_canonical : ∀ l : List Int,
    (∀ last, l.head? ≠ some (last + 1) → portsLoop last l = canonicalRender l) ∧
    (∀ last e gs, l.head? = some (last + 1) → runsOf l = (last + 1, e) :: gs →
      portsLoop last l = tailRender e gs) := by
  intro l
  induction l with
  | nil =>
    constructor
    · intro last _; rfl
    · intro last e gs h; simp at h
  | cons p rest ih =>
    obtain ⟨ihP, ihQ⟩ := ih
    constructor
    · -- part one: p does not continue a run
      intro last hne
      have hp : p ≠ last + 1 := by simpa using hne
      simp only [portsLoop, if_pos hp]
      cases rest with
      | nil =>
        simp only [ne_eq, not_true_eq_false, false_and, if_false, List.head?_nil]
        have : canonicalRender [p] = runStr (p, p) := by
          simp [canonicalRender, runsOf, joinSep]
        rw [this]
        simp [runStr, portsLoop]
      | cons r rest' =>
        by_cases hr : r = p + 1
        · -- the next element continues a run starting at p: no comma
          subst hr
          obtain ⟨e, gs, hre⟩ := runsOf_cons_ex (p + 1) rest'
          have hle : p + 1 ≤ e := (runsOf_head hre).2
          rw [if_neg (by simp)]
          rw [ihQ p e gs (by simp) hre]
          have hx : runsOf (p :: (p + 1) :: rest') = (p, e) :: gs := by
            rw [runsOf_cons, hre]
            simp
          simp only [canonicalRender, hx, List.map_cons]
          have hpe : p ≠ e := by omega
          cases gs with
          | nil => simp [joinSep, tailRender, runStr, hpe]
          | cons g gs' => simp [joinSep, tailRender, runStr, hpe]
        · -- the next element starts a fresh group: comma after p
          obtain ⟨e, gs, hre⟩ := runsOf_cons_ex r rest'
          rw [if_pos (by simpa using hr)]
          rw [ihP p (by simpa using hr)]
          have hx : runsOf (p :: r :: rest') = (p, p) :: (r, e) :: gs := by
            rw [runsOf_cons, hre]
            simp [show ¬ r = p + 1 from hr]
          simp only [canonicalRender, hx, List.map_cons, joinSep, hre]
          simp [runStr]
    · -- part two: p continues a run
      intro last e gs hhead hruns
      have hp : p = last + 1 := by simpa using hhead
      subst hp
      simp only [portsLoop]
      rw [if_neg (show ¬ (last + 1 ≠ last + 1) from by omega)]
      cases rest with
      | nil =>
        rw [if_neg (show ¬ (([] : List Int).head? = some (last + 1 + 1)) from by simp)]
        have h0 : runsOf [last + 1] = [(last + 1, last + 1)] := rfl
        rw [h0] at hruns
        have h1 := List.cons.injEq _ _ _ _ ▸ hruns
        have he : last + 1 = e := congrArg Prod.snd h1.1
        have hgs : ([] : List (Int × Int)) = gs := h1.2
        subst he
        subst hgs
        simp [tailRender, portsLoop]
      | cons r rest' =>
        by_cases hr : r = (last + 1) + 1
        · -- still inside the run
          subst hr
          rw [if_pos (show (((last + 1 + 1) : Int) :: rest').head? = some (last + 1 + 1)
            from rfl)]
          obtain ⟨e', gs', hre⟩ := runsOf_cons_ex (last + 1 + 1) rest'
          have hx : runsOf ((last + 1) :: (last + 1 + 1) :: rest') = (last + 1, e') :: gs' := by
            rw [runsOf_cons, hre]
            simp
          rw [hx] at hruns
          have h1 := List.cons.injEq _ _ _ _ ▸ hruns
          have he : e' = e := congrArg Prod.snd h1.1
          have hgs : gs' = gs := h1.2
          rw [← he, ← hgs]
          exact ihQ (last + 1) e' gs' (by simp) hre
        · -- the run ends at p: dash, end value, comma since more remains
          rw [if_neg (show ¬ (((r : Int) :: rest').head? = some (last + 1 + 1))
            from by simpa using hr)]
          obtain ⟨e', gs', hre⟩ := runsOf_cons_ex r rest'
          have hx : runsOf ((last + 1) :: r :: rest') =
              (last + 1, last + 1) :: (r, e') :: gs' := by
            rw [runsOf_cons, hre]
            simp [show ¬ r = last + 1 + 1 from hr]
          rw [hx] at hruns
          have h1 := List.cons.injEq _ _ _ _ ▸ hruns
          have he : last + 1 = e := congrArg Prod.snd h1.1
          have hgs : (r, e') :: gs' = gs := h1.2
          subst he
          rw [← hgs]
          rw [ihP (last + 1) (by simpa using hr)]
          simp only [tailRender, if_neg (by simp : ¬ ((r, e') :: gs' = ([] : List (Int × Int)))),
            canonicalRender, hre, List.map_cons]
          simp

theorem runsOf_le : ∀ {l : List Int}, ∀ r ∈ runsOf l, r.1 ≤ r.2 := by
  intro l
  induction l with
  | nil => intro r hr; simp [runsOf] at hr
  | cons x t ih =>
    intro r hr
    rw [runsOf_cons] at hr
    cases hq : runsOf t with
    | nil => rw [hq] at hr; simp at hr; subst hr; simp
    | cons q gs =>
      obtain ⟨s, e⟩ := q
      rw [hq] at hr
      have hse : s ≤ e := ih (s, e) (by rw [hq]; simp)
      simp only at hr
      split at hr
      · next hmerge =>
        rcases List.mem_cons.mp hr with h | h
        · subst h; simp; omega
        · exact ih r (by rw [hq]; exact List.mem_cons_of_mem _ h)
      · rcases List.mem_cons.mp hr with h | h
        · subst h; simp
        · exact ih r (by rw [hq]; exact h)

/-- Every element of a run of `runsOf l` is an element of `l`. -/
theorem runsOf_run_subset {l : List Int} {r : Int × Int} (hr : r ∈ runsOf l) :
    ∀ x ∈ intRange r.1 (r.2 + 1), x ∈ l := by
  intro x hx
  have := runsOf_expand l
  rw [← this]
  exact List.mem_flatten.mpr ⟨intRange r.1 (r.2 + 1), List.mem_map_of_mem _ hr, hx⟩


/-- Parsing one rendered run term gives back exactly the run's ports. -/
theorem parsePortTerm_runStr {s e : Int} (h1 : 1 ≤ s) (h2 : s ≤ e) (h3 : e ≤ 65535) :
    parsePortTerm (runStr (s, e)) = .ok (intRange s (e + 1)) := by
  have hvalid : ∀ p ∈ intRange s (e + 1), valid_port p = true := by
    intro p hp
    obtain ⟨hp1, hp2⟩ := mem_intRange.mp hp
    simp only [valid_port, Bool.and_eq_true, decide_eq_true_eq]
    omega
  by_cases hse : s = e
  · -- singleton term
    subst hse
    have hrr : runStr (s, s) = pyStrOfInt s := by simp [runStr]
    have hdash : '-' ∉ pyStrOfInt s := fun hc =>
      absurd (pyStrOfInt_all_digit (by omega) _ hc) (by decide)
    have hne' : ¬ (pyStrOfInt s = []) := by
      rw [pyStrOfInt_nonneg (by omega)]
      exact natDigits_ne_nil _
    have hvp : valid_port s = true := by
      simp only [valid_port, Bool.and_eq_true, decide_eq_true_eq]
      omega
    rw [hrr, intRange_cons (by omega), intRange_eq_nil (by omega)]
    simp only [parsePortTerm, if_neg hdash, if_neg hne',
      pyIntOfChars_pyStrOfInt (show (0:Int) ≤ s from by omega), hvp, if_true]
  · -- start-end term
    have hterm : runStr (s, e) = pyStrOfInt s ++ '-' :: pyStrOfInt e := by
      simp [runStr, hse]
    rw [hterm]
    have hdash : '-' ∈ pyStrOfInt s ++ '-' :: pyStrOfInt e :=
      List.mem_append_right _ (by simp)
    simp only [parsePortTerm, if_pos hdash]
    rw [pySplit_append _ (fun hc =>
      absurd (pyStrOfInt_all_digit (by omega : (0:Int) ≤ s) _ hc) (by decide))]
    rw [pySplit_of_not_mem (fun hc =>
      absurd (pyStrOfInt_all_digit (by omega : (0:Int) ≤ e) _ hc) (by decide))]
    simp only [pyIntOfChars_pyStrOfInt (show (0:Int) ≤ s by omega),
      pyIntOfChars_pyStrOfInt (show (0:Int) ≤ e by omega)]
    exact checkPortRange_ok hvalid

/-- Parsing the rendered terms of a list of runs concatenates the runs'
expansions. -/
theorem portTermsLoop_runs : ∀ {gs : List (Int × Int)},
    (∀ r ∈ gs, 1 ≤ r.1 ∧ r.1 ≤ r.2 ∧ r.2 ≤ 65535) →
    portTermsLoop (gs.map runStr) =
      .ok ((gs.map (fun r => intRange r.1 (r.2 + 1))).flatten) := by
  intro gs
  induction gs with
  | nil => intro _; rfl
  | cons r gs' ih =>
    intro hb
    obtain ⟨hr1, hr2, hr3⟩ := hb r (by simp)
    obtain ⟨s, e⟩ := r
    simp only [List.map_cons, portTermsLoop, List.flatten_cons]
    rw [parsePortTerm_runStr hr1 hr2 hr3, ih (fun q hq => hb q (List.mem_cons_of_mem _ hq))]

/-- Characters of the canonical rendering: digits, dashes and commas only. -/
theorem canonicalRender_chars {l : List Int} (hb : ∀ p ∈ l, 1 ≤ p) :
    ∀ c ∈ canonicalRender l, isDigitChar c = true ∨ c = '-' ∨ c = ',' := by
  intro c hc
  rcases mem_joinSep hc with h | ⟨t, ht, hct⟩
  · exact Or.inr (Or.inr h)
  · obtain ⟨r, hrmem, hrt⟩ := List.mem_map.mp ht
    have h1 : (0:Int) ≤ r.1 := by
      have := runsOf_run_subset hrmem r.1 (mem_intRange.mpr ⟨le_refl _, by
        have := runsOf_le r hrmem; omega⟩)
      have := hb _ this
      omega
    have h2 : (0:Int) ≤ r.2 := by
      have hle := runsOf_le r hrmem
      omega
    subst hrt
    rcases runStr_chars h1 h2 c hct with h | h
    · exact Or.inl h
    · exact Or.inr (Or.inl h)

/-- Parsing the canonical rendering of a nonempty in-bounds list returns its
sorted deduplication. -/
theorem ports_to_list_canonicalRender {l : List Int} (hne : l ≠ [])
    (hb : ∀ p ∈ l, 1 ≤ p ∧ p ≤ 65535) :
    ports_to_list (canonicalRender l) = .ok (sortedUnique l) := by
  have hchars := canonicalRender_chars (fun p hp => (hb p hp).1)
  have hfilter : (canonicalRender l).filter (fun c => c != ' ') = canonicalRender l := by
    apply List.filter_eq_self.mpr
    intro c hc
    rcases hchars c hc with h | h | h
    · simpa using (isDigitChar_ne h).2.2.2.2.2
    · subst h; decide
    · subst h; decide
  have hterms : ∀ t ∈ (runsOf l).map runStr, ',' ∉ t := by
    intro t ht hc
    obtain ⟨r, hrmem, hrt⟩ := List.mem_map.mp ht
    have h1 : (0:Int) ≤ r.1 := by
      have hmem := runsOf_run_subset hrmem r.1 (mem_intRange.mpr ⟨le_refl _, by
        have := runsOf_le r hrmem; omega⟩)
      have := (hb _ hmem).1
      omega
    have h2 : (0:Int) ≤ r.2 := by have := runsOf_le r hrmem; omega
    subst hrt
    rcases runStr_chars h1 h2 ',' hc with h | h
    · exact absurd h (by decide)
    · exact absurd h (by decide)
  have hrne : (runsOf l).map runStr ≠ [] := by
    intro h
    exact hne (runsOf_eq_nil_iff.mp (List.map_eq_nil_iff.mp h))
  have hbounds : ∀ r ∈ runsOf l, 1 ≤ r.1 ∧ r.1 ≤ r.2 ∧ r.2 ≤ 65535 := by
    intro r hr
    have hle := runsOf_le r hr
    have hs : r.1 ∈ l := runsOf_run_subset hr r.1 (mem_intRange.mpr ⟨le_refl _, by omega⟩)
    have he : r.2 ∈ l := runsOf_run_subset hr r.2 (mem_intRange.mpr ⟨hle, by omega⟩)
    exact ⟨(hb _ hs).1, hle, (hb _ he).2⟩
  simp only [ports_to_list, hfilter]
  rw [show canonicalRender l = joinSep ',' ((runsOf l).map runStr) from rfl]
  rw [pySplit_joinSep hrne hterms, portTermsLoop_runs hbounds, runsOf_expand]

theorem ports_to_list_pyStrOfInt {p : Int} (h1 : 1 ≤ p) (h2 : p ≤ 65535) :
    ports_to_list (pyStrOfInt p) = .ok [p] := by
  have h := ports_to_list_canonicalRender (l := [p]) (by simp)
    (by intro q hq; simp only [List.mem_singleton] at hq; subst hq; exact ⟨h1, h2⟩)
  rw [show canonicalRender [p] = pyStrOfInt p from by
    simp [canonicalRender, runsOf, joinSep, runStr]] at h
  rw [h]
  have hsu : sortedUnique [p] = [p] := by
    simp [sortedUnique, List.insertionSort, List.orderedInsert]
  rw [hsu]

theorem extendLoop_map {l : List Int} (hb : ∀ p ∈ l, 1 ≤ p ∧ p ≤ 65535) :
    extendLoop (l.map pyStrOfInt) = .ok l := by
  induction l with
  | nil => rfl
  | cons p t ih =>
    simp only [List.map_cons, extendLoop]
    rw [ports_to_list_pyStrOfInt (hb p (by simp)).1 (hb p (by simp)).2,
      ih (fun q hq => hb q (List.mem_cons_of_mem _ hq))]
    rfl

theorem extend_port_list_eq {l : List Int} (hb : ∀ p ∈ l, 1 ≤ p ∧ p ≤ 65535) :
    extend_port_list l = .ok l.dedup := by
  simp only [extend_port_list, extendLoop_map hb]

/-- C1: for every nonempty list of ports within [1,65535] (any enumeration of
a finite set S), `ports_to_str` renders the canonical ascending comma/dash
form — maximal runs of two or more consecutive ports collapsed to a single
start-end term, singletons written individually (`canonicalRender` of the
sorted deduplication) — and parsing the rendered string with `ports_to_list`
round-trips to the ascending duplicate-free sequence of the elements. -/
theorem c1_ports_round_trip (l : List Int) (hne : l ≠ [])
    (hb : ∀ p ∈ l, 1 ≤ p ∧ p ≤ 65535) :
    ports_to_str l = .ok (canonicalRender (sortedUnique l)) ∧
    (ports_to_str l).bind ports_to_list = .ok (sortedUnique l) := by
  have hdedupb : ∀ p ∈ l.dedup, 1 ≤ p ∧ p ≤ 65535 := fun p hp =>
    hb p (List.mem_dedup.mp hp)
  have hall : l.dedup.all valid_port = true := by
    rw [List.all_eq_true]
    intro p hp
    obtain ⟨ha, hc⟩ := hdedupb p hp
    simp only [valid_port, Bool.and_eq_true, decide_eq_true_eq]
    omega
  set s := l.dedup.insertionSort (· ≤ ·) with hsdef
  have hsorted : s.Sorted (· ≤ ·) := List.sorted_insertionSort _ _
  have hperm : s.Perm l.dedup := List.perm_insertionSort _ _
  have hnodup : s.Nodup := hperm.nodup_iff.mpr (List.nodup_dedup l)
  have hmem : ∀ x ∈ s, x ∈ l := fun x hx => List.mem_dedup.mp (hperm.mem_iff.mp hx)
  have hsne : s ≠ [] := by
    intro h0
    rw [h0] at hperm
    exact hne ((List.dedup_eq_nil l).mp hperm.symm.eq_nil)
  have hhead : s.head? ≠ some (-2 + 1) := by
    cases hs0 : s with
    | nil => simp
    | cons a t =>
      have ha : (1:Int) ≤ a := (hb a (hmem a (by rw [hs0]; simp))).1
      simp only [List.head?_cons, ne_eq, Option.some.injEq]
      omega
  have hrender : ports_to_str l = .ok (portsLoop (-2) s) := by
    simp only [ports_to_str, extend_port_list_eq hb, hall]
    simp
  have hcanon : ports_to_str l = .ok (canonicalRender s) := by
    rw [hrender, (portsLoop_canonical s).1 (-2) hhead]
  have hsb : ∀ p ∈ s, 1 ≤ p ∧ p ≤ 65535 := fun p hp => hb p (hmem p hp)
  have hsid : sortedUnique s = s := by
    simp only [sortedUnique, List.dedup_eq_self.mpr hnodup]
    exact List.Sorted.insertionSort_eq hsorted
  constructor
  · rw [hcanon, show sortedUnique l = s from hsdef.symm]
  · rw [hcanon]
    show ports_to_list (canonicalRender s) = _
    rw [ports_to_list_canonicalRender hsne hsb, hsid,
      show sortedUnique l = s from hsdef.symm]

/-- Witness for C1 at the concrete input [3, 1, 2, 2]. -/
theorem c1_ports_round_trip_witness :
    ports_to_str [3, 1, 2, 2] = .ok (canonicalRender (sortedUnique [3, 1, 2, 2])) ∧
    (ports_to_str [3, 1, 2, 2]).bind ports_to_list = .ok (sortedUnique [3, 1, 2, 2]) :=
  c1_ports_round_trip [3, 1, 2, 2] (by decide) (by decide)

/-- C5 (amended): a comma-term `start-end` with `start > end` (both within
[1,65535]) does not raise: Python's `range(start, end + 1)` is then empty, so
the term silently contributes no ports and the parse succeeds. -/
theorem c5_inverted_range_silent (a b : Int) (h1 : 1 ≤ b) (h2 : b < a) (h3 : a ≤ 65535) :
    ports_to_list (pyStrOfInt a ++ '-' :: pyStrOfInt b) = .ok [] := by
  have hsa : (0:Int) ≤ a := by omega
  have hsb : (0:Int) ≤ b := by omega
  have hterm_chars : ∀ c ∈ pyStrOfInt a ++ '-' :: pyStrOfInt b,
      isDigitChar c = true ∨ c = '-' := by
    intro c hc
    rcases List.mem_append.mp hc with h | h
    · exact Or.inl (pyStrOfInt_all_digit hsa c h)
    · rcases List.mem_cons.mp h with h | h
      · exact Or.inr h
      · exact Or.inl (pyStrOfInt_all_digit hsb c h)
  have hfilter : (pyStrOfInt a ++ '-' :: pyStrOfInt b).filter (fun c => c != ' ')
      = pyStrOfInt a ++ '-' :: pyStrOfInt b := by
    apply List.filter_eq_self.mpr
    intro c hc
    rcases hterm_chars c hc with h | h
    · simpa using (isDigitChar_ne h).2.2.2.2.2
    · subst h; decide
  have hnocomma : ',' ∉ pyStrOfInt a ++ '-' :: pyStrOfInt b := by
    intro hc
    rcases hterm_chars _ hc with h | h
    · exact absurd h (by decide)
    · exact absurd h (by decide)
  simp only [ports_to_list, hfilter]
  rw [pySplit_of_not_mem hnocomma]
  simp only [portTermsLoop, parsePortTerm,
    if_pos (List.mem_append_right _ (List.mem_cons_self '-' _))]
  rw [pySplit_append _ (fun hc =>
    absurd (pyStrOfInt_all_digit hsa _ hc) (by decide))]
  rw [pySplit_of_not_mem (fun hc =>
    absurd (pyStrOfInt_all_digit hsb _ hc) (by decide))]
  simp only [pyIntOfChars_pyStrOfInt hsa, pyIntOfChars_pyStrOfInt hsb]
  rw [intRange_eq_nil (by omega)]
  rfl

/-- Witness for C5's amended statement at 30-10. -/
theorem c5_inverted_range_silent_witness :
    ports_to_list (pyStrOfInt 30 ++ '-' :: pyStrOfInt 10) = .ok [] :=
  c5_inverted_range_silent 30 10 (by decide) (by decide) (by decide)

/-- C5 counterexample to the claim as stated: the specification says an
inverted range fails with a port-range error, but `ports_to_list "30-10"`
succeeds, returning the empty port list with the inverted term silently
omitted — no error of any kind is raised. -/
theorem c5_counterexample :
    ports_to_list ("30-10".data) = .ok [] ∧
    ∀ e, ports_to_list ("30-10".data) ≠ .error e := by
  refine ⟨by decide, ?_⟩
  intro e he
  rw [show ports_to_list ("30-10".data) = .ok [] from by decide] at he
  exact Except.noConfusion he

/-! ## `utils.py` — network dispatch -/

/-- One alternation of `_BASE_IP_REGEX` for a single octet:
`[0-9] | [1-9][0-9] | 1[0-9]{2} | 2[0-4][0-9] | 25[0-5]`. -/
def octetPat : List Char → Bool
  | [c] => isDigitChar c
  | [c1, c2] => (49 ≤ c1.toNat && c1.toNat ≤ 57) && isDigitChar c2
  | [c1, c2, c3] =>
    (c1 = '1' && isDigitChar c2 && isDigitChar c3) ||
    (c1 = '2' && (48 ≤ c2.toNat && c2.toNat ≤ 52) && isDigitChar c3) ||
    (c1 = '2' && c2 = '5' && (48 ≤ c3.toNat && c3.toNat ≤ 53))
  | _ => false

/-- `utils.valid_ip`: full match of `_SINGLE_IP_ADDRESS_REGEX`, i.e. exactly
four dot-separated octet groups (the anchored regex `(octet\.){3}octet`
matches a string iff splitting on dots yields four octet-shaped parts, since
the octet pattern itself contains no dot). -/
def valid_ip (ip_address : List Char) : Bool :=
  match pySplit '.' ip_address with
  | [a, b, c, d] => octetPat a && octetPat b && octetPat c && octetPat d
  | _ => false

/-- `socket.inet_aton` composed with `struct.unpack('>I', ...)` on a
dotted-quad string (the only shape that reaches it in `dispatch_network`,
the address having already passed `valid_ip`): the big-endian 32-bit value
of the four octets. -/
def inet_aton (s : List Char) : Option Nat :=
  match pySplit '.' s with
  | [sa, sb, sc, sd] =>
    match pyIntOfChars sa, pyIntOfChars sb, pyIntOfChars sc, pyIntOfChars sd with
    | some a, some b, some c, some d =>
      if 0 ≤ a ∧ a ≤ 255 ∧ 0 ≤ b ∧ b ≤ 255 ∧ 0 ≤ c ∧ c ≤ 255 ∧ 0 ≤ d ∧ d ≤ 255 then
        some ((a * 16777216 + b * 65536 + c * 256 + d).toNat)
      else none
    | _, _, _, _ => none
  | _ => none

/-- `socket.inet_ntoa` composed with `struct.pack('>I', ...)`: format the
low 32 bits back to a dotted quad. -/
def inet_ntoa (n : Nat) : List Char :=
  natDigits (n / 16777216 % 256) ++ '.' ::
    (natDigits (n / 65536 % 256) ++ '.' ::
      (natDigits (n / 256 % 256) ++ '.' :: natDigits (n % 256)))

/-- Python `range(a, b)` over naturals, as a list. -/
def natRange (a b : Nat) : List Nat := (List.range (b - a)).map (fun k => a + k)

/-- `utils.dispatch_network`: strip blanks, split address and CIDR mask,
validate, then enumerate `range(start, end)` (note: `end` itself, the
broadcast address, is excluded by `range`) and drop the first entry (the
network address, `ip_addresses[1:]`). -/
def dispatch_network (network : List Char) : Except String (List (List Char)) :=
  match pySplit '/' (network.filter (fun c => c != ' ')) with
  | [ip_address, cidr_str] =>
    match pyIntOfChars cidr_str with
    | none => .error "Invalid CIDR format"
    | some cidr =>
      if ¬ (0 ≤ cidr ∧ cidr ≤ 32) then .error "Out of range CIDR"
      else if ¬ valid_ip ip_address then .error "Invalid network IP"
      else
        match inet_aton ip_address with
        | none => .error "inet_aton failed"
        | some aux =>
          let host_bits := 32 - cidr.toNat
          let start := (aux >>> host_bits) <<< host_bits
          let stop := start ||| ((1 <<< host_bits) - 1)
          .ok (((natRange start stop).map inet_ntoa).drop 1)
  | _ => .error "Invalid network to dispatch"

example : dispatch_network ("192.168.1.0/30".data) =
    .ok ["192.168.1.1".data, "192.168.1.2".data] := by decide

theorem two_mul_lor_two_mul_add_one (x y : Nat) :
    (2 * x) ||| (2 * y + 1) = 2 * (x ||| y) + 1 := by
  have h := Nat.lor_bit false x true y
  simpa [Nat.bit_val] using h

/-- Or-ing a multiple of `2 ^ h` with the all-ones mask `2 ^ h - 1` is plain
addition: this is how `dispatch_network` computes the block's end. -/
theorem lor_mask (h q : Nat) : (q * 2 ^ h) ||| (2 ^ h - 1) = q * 2 ^ h + (2 ^ h - 1) := by
  induction h generalizing q with
  | zero => simp
  | succ n ih =>
    have h1 : q * 2 ^ (n + 1) = 2 * (q * 2 ^ n) := by ring
    have h2 : 2 ^ (n + 1) - 1 = 2 * (2 ^ n - 1) + 1 := by
      have : 1 ≤ 2 ^ n := Nat.one_le_two_pow
      omega
    rw [h1, h2, two_mul_lor_two_mul_add_one, ih]
    have : 1 ≤ 2 ^ n := Nat.one_le_two_pow
    ring_nf

set_option maxRecDepth 4096 in
/-- The decimal rendering of every byte value matches the regex octet
alternation. -/
theorem octetPat_natDigits : ∀ n : Nat, n < 256 → octetPat (natDigits n) = true := by
  decide

theorem natRange_eq_nil {a b : Nat} (h : b ≤ a) : natRange a b = [] := by
  simp only [natRange]
  rw [Nat.sub_eq_zero_of_le h]
  rfl

theorem natRange_cons {a b : Nat} (h : a < b) :
    natRange a b = a :: natRange (a + 1) b := by
  simp only [natRange]
  have h1 : b - a = (b - (a + 1)) + 1 := by omega
  rw [h1, List.range_succ_eq_map, List.map_cons, List.map_map]
  congr 1
  apply List.map_congr_left
  intro k _
  simp only [Function.comp_apply]
  omega

/-- The dotted-quad rendering of four octet values. -/
def ipDotted (a b c d : Nat) : List Char :=
  natDigits a ++ '.' :: (natDigits b ++ '.' :: (natDigits c ++ '.' :: natDigits d))

theorem dot_not_mem_natDigits (n : Nat) : '.' ∉ natDigits n := fun hc =>
  absurd (natDigits_all_digit n '.' hc) (by decide)

theorem slash_not_mem_natDigits (n : Nat) : '/' ∉ natDigits n := fun hc =>
  absurd (natDigits_all_digit n '/' hc) (by decide)

theorem pySplit_ipDotted (a b c d : Nat) :
    pySplit '.' (ipDotted a b c d) =
      [natDigits a, natDigits b, natDigits c, natDigits d] := by
  simp only [ipDotted]
  rw [pySplit_append _ (dot_not_mem_natDigits a),
    pySplit_append _ (dot_not_mem_natDigits b),
    pySplit_append _ (dot_not_mem_natDigits c),
    pySplit_of_not_mem (dot_not_mem_natDigits d)]

theorem slash_not_mem_ipDotted (a b c d : Nat) : '/' ∉ ipDotted a b c d := by
  intro hc
  simp only [ipDotted, List.mem_append, List.mem_cons] at hc
  rcases hc with h | h | h | h | h | h | h <;>
    first
    | exact slash_not_mem_natDigits _ h
    | exact absurd h (by decide)

theorem space_not_mem_ipSpec {a b c d cidr : Nat} :
    ∀ x ∈ ipDotted a b c d ++ '/' :: natDigits cidr, ¬ x = ' ' := by
  intro x hx
  rcases List.mem_append.mp hx with h | h
  · simp only [ipDotted, List.mem_append, List.mem_cons] at h
    rcases h with h | h | h | h | h | h | h <;>
      first
      | exact fun he => absurd (natDigits_all_digit _ _ h) (by subst he; decide)
      | (subst h; decide)
  · rcases List.mem_cons.mp h with h | h
    · subst h; decide
    · exact fun he => absurd (natDigits_all_digit _ _ h) (by subst he; decide)

/-- C2 (amended): for every dotted-quad address and CIDR prefix length,
`dispatch_network` returns exactly the addresses strictly between the
network address and the broadcast address: both the network address and the
broadcast address are excluded. -/
theorem c2_dispatch_network (a b c d cidr : Nat)
    (ha : a ≤ 255) (hb : b ≤ 255) (hc : c ≤ 255) (hd : d ≤ 255) (hcidr : cidr ≤ 32) :
    dispatch_network (ipDotted a b c d ++ '/' :: natDigits cidr) =
      .ok ((natRange
        ((a * 16777216 + b * 65536 + c * 256 + d) / 2 ^ (32 - cidr) * 2 ^ (32 - cidr) + 1)
        ((a * 16777216 + b * 65536 + c * 256 + d) / 2 ^ (32 - cidr) * 2 ^ (32 - cidr)
          + 2 ^ (32 - cidr) - 1)).map inet_ntoa) := by
  have hfilter : (ipDotted a b c d ++ '/' :: natDigits cidr).filter (fun ch => ch != ' ')
      = ipDotted a b c d ++ '/' :: natDigits cidr := by
    apply List.filter_eq_self.mpr
    intro ch hch
    simpa using space_not_mem_ipSpec ch hch
  have hsplit : pySplit '/' (ipDotted a b c d ++ '/' :: natDigits cidr)
      = [ipDotted a b c d, natDigits cidr] := by
    rw [pySplit_append _ (slash_not_mem_ipDotted a b c d),
      pySplit_of_not_mem (slash_not_mem_natDigits cidr)]
  have hvalid : valid_ip (ipDotted a b c d) = true := by
    simp only [valid_ip, pySplit_ipDotted]
    simp only [octetPat_natDigits a (by omega), octetPat_natDigits b (by omega),
      octetPat_natDigits c (by omega), octetPat_natDigits d (by omega)]
    rfl
  have haton : inet_aton (ipDotted a b c d)
      = some (a * 16777216 + b * 65536 + c * 256 + d) := by
    simp only [inet_aton, pySplit_ipDotted, pyIntOfChars_natDigits]
    rw [if_pos (by constructor <;> omega)]
    have ht : ((a:Int) * 16777216 + (b:Int) * 65536 + (c:Int) * 256 + (d:Int)).toNat
        = a * 16777216 + b * 65536 + c * 256 + d := by omega
    rw [ht]
  simp only [dispatch_network, hfilter, hsplit, pyIntOfChars_natDigits, hvalid, haton]
  rw [if_neg (by omega)]
  rw [if_neg (by simp)]
  rw [Int.toNat_natCast, Nat.shiftRight_eq_div_pow, Nat.shiftLeft_eq, Nat.shiftLeft_eq,
    one_mul, lor_mask]
  have h1 : 1 ≤ 2 ^ (32 - cidr) := Nat.one_le_two_pow
  by_cases h0 : 2 ^ (32 - cidr) = 1
  · rw [h0]
    rw [natRange_eq_nil (by omega), natRange_eq_nil (by omega)]
    rfl
  · rw [natRange_cons (by omega)]
    simp only [List.map_cons, List.drop_succ_cons, List.drop_zero]
    have he : (a * 16777216 + b * 65536 + c * 256 + d) / 2 ^ (32 - cidr) * 2 ^ (32 - cidr)
        + (2 ^ (32 - cidr) - 1)
        = (a * 16777216 + b * 65536 + c * 256 + d) / 2 ^ (32 - cidr) * 2 ^ (32 - cidr)
        + 2 ^ (32 - cidr) - 1 := by omega
    rw [he]

/-- Witness for C2's amended statement at 192.168.1.0/30 (two addresses). -/
theorem c2_dispatch_network_witness :
    dispatch_network (ipDotted 192 168 1 0 ++ '/' :: natDigits 30) =
      .ok ((natRange
        ((192 * 16777216 + 168 * 65536 + 1 * 256 + 0) / 2 ^ (32 - 30) * 2 ^ (32 - 30) + 1)
        ((192 * 16777216 + 168 * 65536 + 1 * 256 + 0) / 2 ^ (32 - 30) * 2 ^ (32 - 30)
          + 2 ^ (32 - 30) - 1)).map inet_ntoa) :=
  c2_dispatch_network 192 168 1 0 30 (by decide) (by decide) (by decide) (by decide)
    (by decide)

/-- C2 counterexample to the claim as stated: `dispatch_network` on
`192.168.1.0/30` returns exactly the two addresses 192.168.1.1 and
192.168.1.2 — not three — and the broadcast address 192.168.1.3 is *not*
in the result (Python's `range(start, end)` already excludes the broadcast
`end`, and the `[1:]` slice then drops the network address). -/
theorem c2_counterexample :
    dispatch_network ("192.168.1.0/30".data) =
      .ok ["192.168.1.1".data, "192.168.1.2".data] ∧
    "192.168.1.3".data ∉
      (match dispatch_network ("192.168.1.0/30".data) with
        | .ok l => l
        | .error _ => []) := by
  constructor
  · decide
  · decide

/-! ## `elements.py` — result data model -/

/-- `datetime.datetime.fromtimestamp`: modelled as a tagged timestamp (the
conversion is injective; only identity of the produced value matters to the
claims). -/
structure PyDateTime where
  ts : Int
  deriving DecidableEq

def datetime_fromtimestamp (v : Int) : PyDateTime := ⟨v⟩

/-- `elements.Service`.  The source stores `conf` as `float(v)`;
floating-point values are not modelled, so the raw attribute string is kept
(no modelled claim observes `conf`).  `scripts` is the `_scripts` dict. -/
structure Service where
  name : Option String
  product : Option String
  version : Option String
  extrainfo : Option String
  tunnel : Option String
  method : Option String
  conf : Option String
  cpes : List String
  port : Option Int
  scripts : List (String × String)
  deriving DecidableEq

/-- `elements.Port`: `number` and `reason_ttl` pass through `int(v)` in the
setters; they are stored here already converted. -/
structure Port where
  protocol : Option String
  number : Option Int
  state : Option String
  reason : Option String
  reason_ttl : Option Int
  service : Option Service
  deriving DecidableEq

structure OperatingSystemMatch where
  type : Option String
  vendor : Option String
  family : Option String
  generation : Option String
  cpe : Option String
  deriving DecidableEq

/-- `elements.OperatingSystem`; `accuracy` is stored by the source as
`float(v)` — raw string kept, as for `Service.conf`. -/
structure OperatingSystem where
  name : Option String
  accuracy : Option String
  osMatches : List OperatingSystemMatch
  deriving DecidableEq

structure Hop where
  host : Option String
  ip : Option String
  rtt : Option String
  ttl : Option String
  deriving DecidableEq

/-- `elements.Host`.  `start_time_slot` and `end_time_slot` are the private
`_start_time` / `_end_time` attributes (the converted `datetime` values);
the public property getters are defined below. -/
structure Host where
  state : Option String
  reason : Option String
  reason_ttl : Option Int
  start_time_slot : Option PyDateTime
  end_time_slot : Option PyDateTime
  ipv4 : Option String
  ipv6 : Option String
  fingerprint : Option String
  hostnames : List (String × String)
  ports : List Port
  oses : List OperatingSystem
  trace : List Hop
  scripts : List (String × String)
  deriving DecidableEq

/-- The `Host.start_time` property getter: returns `self._start_time`. -/
def Host.start_time (h : Host) : Option PyDateTime := h.start_time_slot

/-- The `Host.end_time` property getter: the source returns
`self._start_time` (not `self._end_time`). -/
def Host.end_time (h : Host) : Option PyDateTime := h.start_time_slot

/-- `Host.__init__` with integer `start_time` / `end_time` kwargs: the two
time setters store `datetime.fromtimestamp(int(v))` for non-`None` values
(`int()` of an `int` is the identity). -/
def Host.init (state reason : Option String) (reason_ttl : Option Int)
    (start_time end_time : Option Int) (ipv4 ipv6 fingerprint : Option String)
    (hostnames : List (String × String)) (ports : List Port)
    (oses : List OperatingSystem) (trace : List Hop)
    (scripts : List (String × String)) : Host :=
  { state := state, reason := reason, reason_ttl := reason_ttl,
    start_time_slot := start_time.map datetime_fromtimestamp,
    end_time_slot := end_time.map datetime_fromtimestamp,
    ipv4 := ipv4, ipv6 := ipv6, fingerprint := fingerprint,
    hostnames := hostnames, ports := ports, oses := oses, trace := trace,
    scripts := scripts }

/-- Python `d[k] = v` on an insertion-ordered dict: replace the value in
place when the key exists, append otherwise. -/
def dictSet {α : Type} (m : List (String × α)) (k : String) (v : α) : List (String × α) :=
  if (m.lookup k).isSome then
    m.map (fun p => if p.1 = k then (k, v) else p)
  else m ++ [(k, v)]

/-- `Host._add_script`: plain dict assignment — an existing name is silently
overwritten. -/
def Host.add_script (h : Host) (script_name script_output : String) : Host :=
  { h with scripts := dictSet h.scripts script_name script_output }

/-- `Service._add_script`: raises `RuntimeError` when the name is already
present, otherwise assigns (necessarily appending a fresh key). -/
def Service.add_script (sv : Service) (script_name script_output : String) :
    Except PyExc Service :=
  if (sv.scripts.lookup script_name).isSome then
    .error (.runtimeError ("Script with identifier \"" ++ script_name ++
      "\" already exists, please name it differently"))
  else .ok { sv with scripts := dictSet sv.scripts script_name script_output }

/-- `Host.get_script` / `Service.get_script`: return the output or raise
`MissingScript`. -/
def Host.get_script (h : Host) (script_name : String) : Except PyExc String :=
  match h.scripts.lookup script_name with
  | some out => .ok out
  | none => .error (.runtimeError ("No script output for the given script: " ++ script_name))

/-- C9: for every Host constructed with integer timestamps `s` (start) and
`e` (end), the public `end_time` property returns the datetime derived from
`s` — the same value `start_time` returns — regardless of `e`: the getter
reads the stored start-time slot, so the supplied end time is never
observable through the accessor. -/
theorem c9_end_time_reads_start_time
    (state reason : Option String) (reason_ttl : Option Int) (s e e' : Int)
    (ipv4 ipv6 fingerprint : Option String) (hostnames : List (String × String))
    (ports : List Port) (oses : List OperatingSystem) (trace : List Hop)
    (scripts : List (String × String)) :
    (Host.init state reason reason_ttl (some s) (some e) ipv4 ipv6 fingerprint
        hostnames ports oses trace scripts).end_time
      = some (datetime_fromtimestamp s) ∧
    (Host.init state reason reason_ttl (some s) (some e) ipv4 ipv6 fingerprint
        hostnames ports oses trace scripts).end_time
      = (Host.init state reason reason_ttl (some s) (some e) ipv4 ipv6 fingerprint
        hostnames ports oses trace scripts).start_time ∧
    (Host.init state reason reason_ttl (some s) (some e) ipv4 ipv6 fingerprint
        hostnames ports oses trace scripts).end_time
      = (Host.init state reason reason_ttl (some s) (some e') ipv4 ipv6 fingerprint
        hostnames ports oses trace scripts).end_time :=
  ⟨rfl, rfl, rfl⟩

/-- C8 (amended): on a `Service`, adding a script under an existing name is
a `RuntimeError` and (the state-passing model returning no new service on
error) the script map is unchanged; under a fresh name the output is
appended.  On a `Host`, by contrast, adding under an existing name silently
overwrites.  A name's presence on a Host never constrains a Service: the
fresh-name case succeeds regardless of any host's scripts. -/
theorem c8_add_script (sv : Service) (h : Host) (name out : String) :
    ((sv.scripts.lookup name).isSome = true →
      Service.add_script sv name out = .error (.runtimeError
        ("Script with identifier \"" ++ name ++ "\" already exists, please name it differently"))) ∧
    (sv.scripts.lookup name = none →
      Service.add_script sv name out = .ok { sv with scripts := sv.scripts ++ [(name, out)] }) ∧
    (Host.add_script h name out).scripts = dictSet h.scripts name out := by
  refine ⟨?_, ?_, rfl⟩
  · intro hdup
    simp only [Service.add_script, if_pos hdup]
  · intro hfresh
    simp only [Service.add_script, dictSet, hfresh]
    simp

/-- An all-defaults `Service` carrying the given scripts dict. -/
def serviceWith (scripts : List (String × String)) : Service :=
  { name := none, product := none, version := none, extrainfo := none,
    tunnel := none, method := none, conf := none, cpes := [], port := none,
    scripts := scripts }

/-- An all-defaults `Host` carrying the given scripts dict. -/
def hostWith (scripts : List (String × String)) : Host :=
  { state := none, reason := none, reason_ttl := none, start_time_slot := none,
    end_time_slot := none, ipv4 := none, ipv6 := none, fingerprint := none,
    hostnames := [], ports := [], oses := [], trace := [], scripts := scripts }

/-- Witness for C8's amended statement: a service already holding "x"
rejects a second "x" (even though a host holds "x" too), and a service
without "x" accepts it. -/
theorem c8_add_script_witness :
    (Service.add_script (serviceWith [("x", "1")]) "x" "2"
      = .error (.runtimeError
          "Script with identifier \"x\" already exists, please name it differently")) ∧
    (Service.add_script (serviceWith [("y", "1")]) "x" "2"
      = .ok (serviceWith [("y", "1"), ("x", "2")])) := by
  constructor
  · exact (c8_add_script (serviceWith [("x", "1")]) (hostWith [("x", "host")])
      "x" "2").1 (by decide)
  · exact (c8_add_script (serviceWith [("y", "1")]) (hostWith [("x", "host")])
      "x" "2").2.1 (by decide)

/-- C8 counterexample to the claim as stated: on a `Host` (an entity owning
a script-output map), adding a script under a name that already exists is
*not* an error — `Host._add_script` silently overwrites, and the map
changes. -/
theorem c8_counterexample :
    (Host.add_script (hostWith [("x", "1")]) "x" "2").scripts = [("x", "2")] := by
  decide

/-! ## `engine.py` — NSE script engine -/

/-- A script's target filter: either the literal `'*'` string or the
resolved target list produced by `targets_to_list`. -/
inductive TargetsFilter where
  | star
  | list (targets : List String)

/-- `_NSEHostScript`: name, callback and target filter.  The `delayed` flag
only selects between `i.func` and `getattr(self, i.func.__name__)` — the
same callable either way — so a single `func` field models both; a callback
raising `StopExecution` is an `.error .stopExecution` result. -/
structure NSEHostScript where
  name : String
  func : Host → Except PyExc String
  targets : TargetsFilter

/-- `_NSEPortScript`: additionally the port set (`None` or a resolved
`List Int`; the setter can never store the literal `'*'`, since
`ports_to_list('*')` raises), the protocol filter and the state list. -/
structure NSEPortScript where
  name : String
  func : Host → Port → Service → Except PyExc String
  targets : TargetsFilter
  ports : Option (List Int)
  proto : Option String
  states : List String

/-- `engine.NSE` instance state. -/
structure NSE where
  global_parsers : List (String → Except PyExc String)
  parsers : List (String × (String → Except PyExc String))
  host_scripts : List NSEHostScript
  port_scripts : List NSEPortScript

/-- The target condition of `_apply_host_scripts` / `_apply_port_scripts`:
`i.targets == '*' or host.ipv4 in i.targets or any(x for x in
host.hostnames() if x in i.targets)` (a `None` ipv4 is in no string list). -/
def targetsMatch (t : TargetsFilter) (host : Host) : Bool :=
  match t with
  | .star => true
  | .list ts =>
    (match host.ipv4 with
     | some ip => ts.contains ip
     | none => false) ||
    host.hostnames.any (fun p => ts.contains p.1)

/-- The loop of `NSE._apply_host_scripts`: run each matching host script,
swallowing `StopExecution`, writing other outputs into the host's script
map (`Host._add_script` overwrites silently). -/
def applyHostScriptsLoop (scripts : List NSEHostScript) (host : Host) :
    Except PyExc Host :=
  match scripts with
  | [] => .ok host
  | i :: rest =>
    if targetsMatch i.targets host then
      match i.func host with
      | .error .stopExecution => applyHostScriptsLoop rest host
      | .error e => .error e
      | .ok out => applyHostScriptsLoop rest (host.add_script i.name out)
    else applyHostScriptsLoop rest host

def NSE.apply_host_scripts (nse : NSE) (host : Host) : Except PyExc Host :=
  applyHostScriptsLoop nse.host_scripts host

/-- The loop of `NSE._apply_port_scripts`.  The condition is evaluated with
Python's short-circuiting: target filter, then `(i.proto == '*' or
port.protocol == i.proto)`, then `(i.ports == '*' or port.number in
i.ports)` — the first disjunct is always false (see `NSEPortScript.ports`)
and `in` against a `None` port set raises `TypeError` — then `port.state in
i.states`.  On a match, `service._add_script(...)` is evaluated: the
attribute lookup on a `None` service raises `AttributeError` before the
callback is invoked; with a service bound, the callback runs
(`StopExecution` swallowed) and `Service._add_script` stores the output
(raising `RuntimeError` on a duplicate name). -/
def applyPortScriptsLoop (scripts : List NSEPortScript) (host : Host)
    (port : Port) (service : Option Service) : Except PyExc (Option Service) :=
  match scripts with
  | [] => .ok service
  | i :: rest =>
    if targetsMatch i.targets host then
      if i.proto = some "*" ∨ port.protocol = i.proto then
        match i.ports with
        | none => .error (.typeError "argument of type 'NoneType' is not iterable")
        | some ps =>
          if (match port.number with
              | some n => ps.contains n
              | none => false) then
            if (match port.state with
                | some st => i.states.contains st
                | none => false) then
              match service with
              | none => .error (.attributeError
                  "'NoneType' object has no attribute '_add_script'")
              | some sv =>
                match i.func host port sv with
                | .error .stopExecution => applyPortScriptsLoop rest host port service
                | .error e => .error e
                | .ok out =>
                  match sv.add_script i.name out with
                  | .error e => .error e
                  | .ok sv2 => applyPortScriptsLoop rest host port (some sv2)
            else applyPortScriptsLoop rest host port service
          else applyPortScriptsLoop rest host port service
      else applyPortScriptsLoop rest host port service
    else applyPortScriptsLoop rest host port service

/-- `NSE._apply_port_scripts` (the initial `if not self._port_scripts:
return` early-out coincides with the loop's empty case). -/
def NSE.apply_port_scripts (nse : NSE) (host : Host) (port : Port)
    (service : Option Service) : Except PyExc (Option Service) :=
  applyPortScriptsLoop nse.port_scripts host port service

/-- Python `del lst[idx]` with a `str` index: unconditional `TypeError`
(list indices must be integers). -/
def pyListDelStr {α : Type} (lst : List α) (idx : String) : Except PyExc (List α) :=
  .error (.typeError "list indices must be integers or slices, not str")

/-- Python `del d[k]` on a dict: remove the key or raise `KeyError`. -/
def pyDictDel {α : Type} (d : List (String × α)) (k : String) :
    Except PyExc (List (String × α)) :=
  if (d.lookup k).isSome then .ok (d.eraseP (fun p => p.1 == k))
  else .error (.keyError k)

/-- `NSE.delete_host_script`: `del self._host_scripts[name]` inside
`try/except KeyError` (swallowed only when `silent`). -/
def NSE.delete_host_script (nse : NSE) (name : String) (silent : Bool) :
    Except PyExc NSE :=
  match pyListDelStr nse.host_scripts name with
  | .ok l => .ok { nse with host_scripts := l }
  | .error (.keyError k) => if silent then .ok nse else .error (.keyError k)
  | .error e => .error e

/-- `NSE.delete_port_script`: same shape over `_port_scripts`. -/
def NSE.delete_port_script (nse : NSE) (name : String) (silent : Bool) :
    Except PyExc NSE :=
  match pyListDelStr nse.port_scripts name with
  | .ok l => .ok { nse with port_scripts := l }
  | .error (.keyError k) => if silent then .ok nse else .error (.keyError k)
  | .error e => .error e

/-- `NSE.delete_parser`: `del self._parsers[name]` — `_parsers` is a dict —
inside the same `try/except KeyError`. -/
def NSE.delete_parser (nse : NSE) (name : String) (silent : Bool) :
    Except PyExc NSE :=
  match pyDictDel nse.parsers name with
  | .ok d => .ok { nse with parsers := d }
  | .error (.keyError k) => if silent then .ok nse else .error (.keyError k)
  | .error e => .error e

/-- C10: for every engine and name, `delete_host_script` and
`delete_port_script` raise `TypeError` even when `silent` is true — the
scripts are stored in lists, deleting a string index from a list raises
`TypeError`, and the handler catches only `KeyError` — whereas
`delete_parser(name, silent=True)` never raises for a missing name. -/
theorem c10_delete_script_type_error (nse : NSE) (name : String) (silent : Bool) :
    nse.delete_host_script name silent
      = .error (.typeError "list indices must be integers or slices, not str") ∧
    nse.delete_port_script name silent
      = .error (.typeError "list indices must be integers or slices, not str") ∧
    ∃ nse', nse.delete_parser name true = .ok nse' := by
  refine ⟨rfl, rfl, ?_⟩
  by_cases hp : (nse.parsers.lookup name).isSome
  · exact ⟨{ nse with parsers := nse.parsers.eraseP (fun p => p.1 == name) },
      by simp [NSE.delete_parser, pyDictDel, hp]⟩
  · exact ⟨nse, by simp [NSE.delete_parser, pyDictDel, hp]⟩

/-- C3 (amended): for a port script whose filters all match a host's port
(over a single-script engine): with a bound service whose script map does
not already hold the script's name, dispatch invokes the callback and, when
it returns a value, writes it under the script's name into the service's
script map; with *no* bound service, dispatch raises `AttributeError`
(`service._add_script` on `None`) — it is not a silent no-op, and the
callback is never invoked. -/
theorem c3_port_script_dispatch (nse : NSE) (i : NSEPortScript)
    (host : Host) (port : Port) (ps : List Int)
    (hscripts : nse.port_scripts = [i])
    (htarget : targetsMatch i.targets host = true)
    (hproto : i.proto = some "*" ∨ port.protocol = i.proto)
    (hports : i.ports = some ps)
    (hnum : (match port.number with
             | some n => ps.contains n
             | none => false) = true)
    (hstate : (match port.state with
               | some st => i.states.contains st
               | none => false) = true) :
    (∀ sv out, i.func host port sv = .ok out → sv.scripts.lookup i.name = none →
      nse.apply_port_scripts host port (some sv)
        = .ok (some { sv with scripts := sv.scripts ++ [(i.name, out)] })) ∧
    nse.apply_port_scripts host port none
      = .error (.attributeError "'NoneType' object has no attribute '_add_script'") := by
  constructor
  · intro sv out hfunc hfresh
    simp only [NSE.apply_port_scripts, hscripts, applyPortScriptsLoop, if_pos htarget,
      if_pos hproto, hports, hnum, hstate, if_pos rfl, hfunc]
    simp only [Service.add_script, dictSet, hfresh]
    simp [applyPortScriptsLoop]
  · simp only [NSE.apply_port_scripts, hscripts, applyPortScriptsLoop, if_pos htarget,
      if_pos hproto, hports, hnum, hstate, if_pos rfl]
    simp

/-- A concrete port script filtered to port 80, protocol wildcard, state
`open`, all targets. -/
def portScript80 : NSEPortScript :=
  { name := "myscript", func := fun _ _ _ => .ok "output", targets := .star,
    ports := some [80], proto := some "*", states := ["open"] }

/-- An engine holding only `portScript80`. -/
def engineWith80 : NSE :=
  { global_parsers := [], parsers := [], host_scripts := [],
    port_scripts := [portScript80] }

/-- A concrete open TCP port 80 without a service. -/
def port80 : Port :=
  { protocol := some "tcp", number := some 80, state := some "open",
    reason := none, reason_ttl := none, service := none }

/-- Witness for C3's amended statement: the matching script writes its
output on a service-bearing port and raises on a serviceless one. -/
theorem c3_port_script_dispatch_witness :
    (engineWith80.apply_port_scripts (hostWith []) port80 (some (serviceWith []))
      = .ok (some { serviceWith [] with scripts := [("myscript", "output")] })) ∧
    engineWith80.apply_port_scripts (hostWith []) port80 none
      = .error (.attributeError "'NoneType' object has no attribute '_add_script'") :=
  ⟨(c3_port_script_dispatch engineWith80 portScript80 (hostWith []) port80 [80]
      rfl rfl (Or.inl rfl) rfl rfl rfl).1 (serviceWith []) "output" rfl rfl,
   (c3_port_script_dispatch engineWith80 portScript80 (hostWith []) port80 [80]
      rfl rfl (Or.inl rfl) rfl rfl rfl).2⟩

/-- C3 counterexample to the claim as stated: with the matching script and
a port that has no bound service, dispatch does *not* silently skip the
port — it raises `AttributeError` (the source calls
`service._add_script(...)` with `service = None`). -/
theorem c3_counterexample :
    engineWith80.apply_port_scripts (hostWith []) port80 none
      = .error (.attributeError "'NoneType' object has no attribute '_add_script'") := rfl

/-! ## `scanner.py` — engine application inside `_parse_nmap_output` -/

/-- The parser-application loop of `NmapScanner._parse_nmap_output`
(lines 331-340): for each registered parser,
`port.service._scripts[script_name] =
callback(port.service._scripts[script_name])` inside a
`try/except KeyError as e` whose handler re-raises unless
`"'{script_name}'" == str(e)` — i.e. unless the missing key is exactly the
parser's script name.  The `KeyError` may come from the dict lookup (the
script never ran: its key is the script name, always swallowed) or from
inside the callback (its key is compared against the script name). -/
def applyParsersLoop (parsers : List (String × (String → Except PyExc String)))
    (sv : Service) : Except PyExc Service :=
  match parsers with
  | [] => .ok sv
  | (script_name, callback) :: rest =>
    match sv.scripts.lookup script_name with
    | none => applyParsersLoop rest sv
    | some out =>
      match callback out with
      | .error (.keyError k) =>
        if k = script_name then applyParsersLoop rest sv
        else .error (.keyError k)
      | .error e => .error e
      | .ok v =>
        applyParsersLoop rest { sv with scripts := dictSet sv.scripts script_name v }

/-- The per-port body of the engine block of `_parse_nmap_output` (lines
328-343): name-specific parsers run first (only when parsers are registered
and the port has a truthy service), then `_apply_port_scripts` is applied
to the (possibly rewritten) service.  In-place mutation of the service is
modelled by state passing; the host value the port scripts receive is the
host after host-script application. -/
def applyEnginePorts (engine : NSE) (host : Host) :
    List Port → Except PyExc (List Port)
  | [] => .ok []
  | port :: rest =>
    let parsed : Except PyExc Port :=
      if engine.parsers.isEmpty = false ∧ port.service.isSome = true then
        match port.service with
        | some sv =>
          match applyParsersLoop engine.parsers sv with
          | .error e => .error e
          | .ok sv2 => .ok { port with service := some sv2 }
        | none => .ok port
      else .ok port
    match parsed with
    | .error e => .error e
    | .ok port2 =>
      match engine.apply_port_scripts host port2 port2.service with
      | .error e => .error e
      | .ok sv3 =>
        match applyEnginePorts engine host rest with
        | .error e => .error e
        | .ok rest2 => .ok ({ port2 with service := sv3 } :: rest2)

/-- The `if engine:` block of `_parse_nmap_output` (lines 324-343), over the
parsed result's hosts: host scripts, then per-port parsers and port
scripts.  Note that `engine._global_parsers` is never consulted anywhere in
this code path: registered global parsers are dead state. -/
def applyEngineHosts (engine : NSE) : List Host → Except PyExc (List Host)
  | [] => .ok []
  | host :: rest =>
    match engine.apply_host_scripts host with
    | .error e => .error e
    | .ok host2 =>
      match applyEnginePorts engine host2 host2.ports with
      | .error e => .error e
      | .ok ports2 =>
        match applyEngineHosts engine rest with
        | .error e => .error e
        | .ok rest2 => .ok ({ host2 with ports := ports2 } :: rest2)

/-- C7: during parser application, a lookup failure for exactly the
parser's script name N — the service's script map has no entry N — is
swallowed silently: no output entry is created and dispatch continues with
the remaining parsers; whereas a `KeyError` raised for any key other than N
(for example from inside the parser callback itself) propagates to the
caller. -/
theorem c7_parser_key_error (n : String) (cb : String → Except PyExc String)
    (rest : List (String × (String → Except PyExc String))) (sv : Service) :
    (sv.scripts.lookup n = none →
      applyParsersLoop ((n, cb) :: rest) sv = applyParsersLoop rest sv) ∧
    (∀ out k, sv.scripts.lookup n = some out → cb out = .error (.keyError k) →
      k ≠ n → applyParsersLoop ((n, cb) :: rest) sv = .error (.keyError k)) := by
  constructor
  · intro hmiss
    simp only [applyParsersLoop, hmiss]
  · intro out k hout hcb hk
    simp only [applyParsersLoop, hout, hcb, if_neg hk]

/-- Witness for C7 with the "http-enum" parser of the specification's
example: a service that never ran "http-enum" is skipped silently; a
callback raising `KeyError('data')` on a service that did run it
propagates. -/
theorem c7_parser_key_error_witness :
    (applyParsersLoop [("http-enum", fun _ => .error (.keyError "data"))]
        (serviceWith [("http-title", "t")])
      = applyParsersLoop [] (serviceWith [("http-title", "t")])) ∧
    applyParsersLoop [("http-enum", fun _ => .error (.keyError "data"))]
        (serviceWith [("http-enum", "raw")])
      = .error (.keyError "data") :=
  ⟨(c7_parser_key_error "http-enum" (fun _ => .error (.keyError "data"))
      [] (serviceWith [("http-title", "t")])).1 rfl,
   (c7_parser_key_error "http-enum" (fun _ => .error (.keyError "data"))
      [] (serviceWith [("http-enum", "raw")])).2 "raw" "data" rfl rfl
      (by decide)⟩

/-- C4: an engine whose only registered callbacks are global parsers leaves
every host — and every script output on every entity — unchanged: the
dispatch code of `_parse_nmap_output` never consults
`engine._global_parsers`, so registered global parsers are never applied
to anything. -/
theorem c4_global_parsers_never_applied (engine : NSE) (hosts : List Host)
    (hp : engine.parsers = []) (hh : engine.host_scripts = [])
    (hps : engine.port_scripts = []) :
    applyEngineHosts engine hosts = .ok hosts := by
  have hports : ∀ (host : Host) (ports : List Port),
      applyEnginePorts engine host ports = .ok ports := by
    intro host ports
    induction ports with
    | nil => rfl
    | cons port rest ih =>
      simp [applyEnginePorts, hp, hps, NSE.apply_port_scripts, applyPortScriptsLoop, ih]
  induction hosts with
  | nil => rfl
  | cons host rest ih =>
    simp only [applyEngineHosts, NSE.apply_host_scripts, hh, applyHostScriptsLoop,
      hports host host.ports, ih]

/-- An engine registering only one global parser. -/
def globalOnlyEngine : NSE :=
  { global_parsers := [fun s => .ok ("PARSED:" ++ s)], parsers := [],
    host_scripts := [], port_scripts := [] }

/-- A host with an open port 80 whose service carries one script output. -/
def hostWithOutput : Host :=
  { hostWith [] with ports :=
      [{ port80 with service := some (serviceWith [("http-title", "raw")]) }] }

/-- Witness for C4 at a concrete input: the engine holds a global parser
that would rewrite `"raw"`, yet dispatch returns the host with the script
output untouched. -/
theorem c4_global_parsers_never_applied_witness :
    applyEngineHosts globalOnlyEngine [hostWithOutput] = .ok [hostWithOutput] :=
  c4_global_parsers_never_applied globalOnlyEngine [hostWithOutput] rfl rfl rfl

/-! ## `parser.py` — XML ingestion (`XMLParser._parse`) -/

/-- An XML attribute access `elem.attrib['k']`: `KeyError` when absent. -/
def getAttr (v : Option String) (k : String) : Except PyExc String :=
  match v with
  | some s => .ok s
  | none => .error (.keyError k)

/-- Python `int(v)` where the caller needs the converted value
(`ValueError` propagates). -/
def pyIntOfStr (s : String) : Except PyExc Int :=
  match pyIntOfChars s.data with
  | some n => .ok n
  | none => .error (.valueError ("invalid literal for int() with base 10: " ++ s))

/-- `int(v)` lifted over an optional attribute (setters convert only
non-`None` values). -/
def optIntField : Option String → Except PyExc (Option Int)
  | none => .ok none
  | some s =>
    match pyIntOfStr s with
    | .error e => .error e
    | .ok n => .ok (some n)

/-- `<address>` element (attributes read through `attrib[...]`). -/
structure AddressElem where
  addrtype : Option String
  addr : Option String
  deriving DecidableEq

/-- `<status>` element of a host. -/
structure StatusElem where
  state : Option String
  reason : Option String
  reason_ttl : Option String
  deriving DecidableEq

/-- One `<hostname>` child (`name` / `type` attributes). -/
structure HostnameElem where
  hostname : Option String
  hntype : Option String
  deriving DecidableEq

/-- A `<script>` element (`id` / `output` attributes). -/
structure ScriptElem where
  id : Option String
  output : Option String
  deriving DecidableEq

/-- The `<state>` child of a `<port>`. -/
structure StateElem where
  state : Option String
  reason : Option String
  reason_ttl : Option String
  deriving DecidableEq

/-- The `<service>` child of a `<port>`: only `name` is accessed without a
`try/except KeyError` guard; the guarded attributes default to `None` and
are therefore plain options here; `cpes` are the `<cpe>` children's texts. -/
structure ServiceElem where
  name : Option String
  product : Option String
  version : Option String
  extrainfo : Option String
  tunnel : Option String
  method : Option String
  conf : Option String
  cpes : List String
  deriving DecidableEq

structure PortElem where
  protocol : Option String
  portid : Option String
  state : Option StateElem
  service : Option ServiceElem
  scripts : List ScriptElem
  deriving DecidableEq

/-- `<osclass>`: all four attributes and the `<cpe>` child are read under
`try/except KeyError` (or `find`), defaulting to `None`. -/
structure OsClassElem where
  type : Option String
  vendor : Option String
  family : Option String
  generation : Option String
  cpe : Option String
  deriving DecidableEq

structure OsMatchElem where
  name : Option String
  accuracy : Option String
  classes : List OsClassElem
  deriving DecidableEq

/-- `<hop>`: every attribute is read under `try/except KeyError`. -/
structure HopElem where
  host : Option String
  ttl : Option String
  rtt : Option String
  ipaddr : Option String
  deriving DecidableEq

/-- A `<host>` element with the sub-elements `_parse` reads. -/
structure HostElem where
  starttime : Option String
  endtime : Option String
  status : Option StatusElem
  addresses : List AddressElem
  hostnames : Option (List HostnameElem)
  osfingerprint : Option (Option String)
  ports : Option (List PortElem)
  os : Option (List OsMatchElem)
  trace : Option (List HopElem)
  hostscript : Option (List ScriptElem)
  deriving DecidableEq

/-- `<finished>` element attributes. -/
structure FinishedElem where
  time : Option String
  elapsed : Option String
  summary : Option String
  exit_status : Option String
  deriving DecidableEq

/-- `<hosts>` element attributes. -/
structure HostsElem where
  up : Option String
  down : Option String
  total : Option String
  deriving DecidableEq

/-- `<scaninfo>` element attributes. -/
structure ScanInfoElem where
  protocol : Option String
  type : Option String
  numservices : Option String
  services : Option String
  deriving DecidableEq

/-- The report tree handed to `XMLParser._parse`: root attributes, the
`finished` and `hosts` blocks (absent ⇒ `find` returns `None` and `.attrib`
raises `AttributeError`), the `scaninfo` records, optional verbosity and
debugging level elements (each with a required `level` attribute), and the
host elements. -/
structure NmapXMLDocument where
  scanner : Option String
  args : Option String
  start : Option String
  version : Option String
  finished : Option FinishedElem
  hostsElem : Option HostsElem
  scaninfos : List ScanInfoElem
  verbose : Option (Option String)
  debugging : Option (Option String)
  hosts : List HostElem
  deriving DecidableEq

/-- `results.NmapScanResult` (the metadata the constructor stores, after
the setters' conversions; `elapsed` keeps the raw string — the source
converts with `float(v)` and silently swallows `ValueError`, and no
modelled claim observes it). -/
structure NmapScanResult where
  scanner : Option String
  arguments : Option String
  version : Option String
  summary : Option String
  exit_status : Option String
  start_timestamp : Option Int
  start_datetime : Option PyDateTime
  end_timestamp : Option Int
  end_datetime : Option PyDateTime
  elapsed : Option String
  hosts_up : Option String
  hosts_down : Option String
  num_hosts : Option String
  scan_info : List (String × (String × String × String))
  verbose : Option Int
  debug : Option Int
  hosts : List Host
  deriving DecidableEq

/-- The `for addr in address_items` loop: `addr.attrib['addrtype']` is read
unguarded; an `ipv4`/`ipv6` record sets the corresponding entry (later
records overwrite earlier ones), any other type is skipped. -/
def scanAddresses : List AddressElem → Option String → Option String →
    Except PyExc (Option String × Option String)
  | [], v4, v6 => .ok (v4, v6)
  | a :: rest, v4, v6 =>
    match getAttr a.addrtype "addrtype" with
    | .error e => .error e
    | .ok t =>
      if t = "ipv4" then
        match getAttr a.addr "addr" with
        | .error e => .error e
        | .ok ad => scanAddresses rest (some ad) v6
      else if t = "ipv6" then
        match getAttr a.addr "addr" with
        | .error e => .error e
        | .ok ad => scanAddresses rest v4 (some ad)
      else scanAddresses rest v4 v6

/-- The hostname loop: `host_info['hostnames'][name] = type`. -/
def parseHostnames (acc : List (String × String)) :
    List HostnameElem → Except PyExc (List (String × String))
  | [] => .ok acc
  | hn :: rest =>
    match getAttr hn.hostname "name" with
    | .error e => .error e
    | .ok n =>
      match getAttr hn.hntype "type" with
      | .error e => .error e
      | .ok t => parseHostnames (dictSet acc n t) rest

/-- The `for script in port.findall('script')` loop:
`service_instance._add_script(id, output)` — duplicate ids raise. -/
def parseServiceScripts (sv : Service) : List ScriptElem → Except PyExc Service
  | [] => .ok sv
  | sc :: rest =>
    match getAttr sc.id "id" with
    | .error e => .error e
    | .ok i =>
      match getAttr sc.output "output" with
      | .error e => .error e
      | .ok o =>
        match sv.add_script i o with
        | .error e => .error e
        | .ok sv2 => parseServiceScripts sv2 rest

/-- One `<port>` element (parser.py lines 196-257): required attributes and
state element, `Port` construction (`int(portid)` and `int(reason_ttl)` in
the setters), then the optional service with its CPEs and scripts. -/
def parsePort (pelem : PortElem) : Except PyExc Port :=
  match getAttr pelem.protocol "protocol" with
  | .error e => .error e
  | .ok protocol =>
  match getAttr pelem.portid "portid" with
  | .error e => .error e
  | .ok portid =>
  match pelem.state with
  | none => .error (.xmlParsingError "Cannot find state element from port")
  | some stElem =>
  match getAttr stElem.state "state" with
  | .error e => .error e
  | .ok state =>
  match getAttr stElem.reason "reason" with
  | .error e => .error e
  | .ok reason =>
  match getAttr stElem.reason_ttl "reason_ttl" with
  | .error e => .error e
  | .ok reason_ttl =>
  match pyIntOfStr portid with
  | .error e => .error e
  | .ok number =>
  match pyIntOfStr reason_ttl with
  | .error e => .error e
  | .ok rttl =>
  let port_instance : Port :=
    { protocol := some protocol, number := some number, state := some state,
      reason := some reason, reason_ttl := some rttl, service := none }
  match pelem.service with
  | none => .ok port_instance
  | some selem =>
    match getAttr selem.name "name" with
    | .error e => .error e
    | .ok sname =>
      match pyIntOfStr portid with
      | .error e => .error e
      | .ok sport =>
        let service_instance : Service :=
          { name := some sname, product := selem.product, version := selem.version,
            extrainfo := selem.extrainfo, tunnel := selem.tunnel,
            method := selem.method, conf := selem.conf, cpes := selem.cpes,
            port := some sport, scripts := [] }
        match parseServiceScripts service_instance pelem.scripts with
        | .error e => .error e
        | .ok sv => .ok { port_instance with service := some sv }

def parsePorts : List PortElem → Except PyExc (List Port)
  | [] => .ok []
  | p :: rest =>
    match parsePort p with
    | .error e => .error e
    | .ok port =>
      match parsePorts rest with
      | .error e => .error e
      | .ok r => .ok (port :: r)

/-- The `<os>` section: each `osmatch` needs `name` and `accuracy`; the
`osclass` records are fully optional. -/
def parseOsMatches : List OsMatchElem → Except PyExc (List OperatingSystem)
  | [] => .ok []
  | m :: rest =>
    match getAttr m.name "name" with
    | .error e => .error e
    | .ok nm =>
      match getAttr m.accuracy "accuracy" with
      | .error e => .error e
      | .ok acc =>
        let ms : List OperatingSystemMatch := m.classes.map (fun c =>
          { type := c.type, vendor := c.vendor, family := c.family,
            generation := c.generation, cpe := c.cpe })
        match parseOsMatches rest with
        | .error e => .error e
        | .ok r => .ok ({ name := some nm, accuracy := some acc, osMatches := ms } :: r)

/-- The host-script loop: `host_instance._add_script(id, output)`
(`Host._add_script` never rejects duplicates).  The source guards the loop
with `if hostscript_element:` — an element with no children is falsy — but
folding over an empty child list is a no-op anyway. -/
def parseHostScripts (h : Host) : List ScriptElem → Except PyExc Host
  | [] => .ok h
  | sc :: rest =>
    match getAttr sc.id "id" with
    | .error e => .error e
    | .ok i =>
      match getAttr sc.output "output" with
      | .error e => .error e
      | .ok o => parseHostScripts (h.add_script i o) rest

/-- One `<host>` element (parser.py lines 153-322): start/end times and
status, the address records — at least one required, and at least one of
ipv4/ipv6 required — hostnames, fingerprint, `Host` construction (the time
and reason-ttl setters convert), then ports, OS matches, traceroute and
host scripts. -/
def parseHost (helem : HostElem) : Except PyExc Host :=
  match getAttr helem.starttime "starttime" with
  | .error e => .error e
  | .ok starttime =>
  match getAttr helem.endtime "endtime" with
  | .error e => .error e
  | .ok endtime =>
  match helem.status with
  | none => .error (.xmlParsingError "Could not get status from host")
  | some status =>
  match getAttr status.state "state" with
  | .error e => .error e
  | .ok state =>
  match getAttr status.reason "reason" with
  | .error e => .error e
  | .ok reason =>
  match getAttr status.reason_ttl "reason_ttl" with
  | .error e => .error e
  | .ok reason_ttl =>
  if helem.addresses.isEmpty then
    .error (.xmlParsingError "Could not be able to parse host address")
  else
  match scanAddresses helem.addresses none none with
  | .error e => .error e
  | .ok (ipv4, ipv6) =>
  if ipv4 = none ∧ ipv6 = none then
    .error (.xmlParsingError "Cannot parse host that no IPv4 nor IPv6 address")
  else
  match (match helem.hostnames with
         | none => Except.ok ([] : List (String × String))
         | some hl => parseHostnames [] hl) with
  | .error e => .error e
  | .ok hostnames =>
  match (match helem.osfingerprint with
         | none => Except.ok (none : Option String)
         | some fpAttr =>
           match getAttr fpAttr "fingerprint" with
           | .error e => .error e
           | .ok fp => .ok (some fp)) with
  | .error e => .error e
  | .ok fingerprint =>
  match pyIntOfStr starttime with
  | .error e => .error e
  | .ok stInt =>
  match pyIntOfStr endtime with
  | .error e => .error e
  | .ok etInt =>
  match pyIntOfStr reason_ttl with
  | .error e => .error e
  | .ok rttlInt =>
  match (match helem.ports with
         | none => Except.ok ([] : List Port)
         | some plist => parsePorts plist) with
  | .error e => .error e
  | .ok ports =>
  match (match helem.os with
         | none => Except.ok ([] : List OperatingSystem)
         | some ms => parseOsMatches ms) with
  | .error e => .error e
  | .ok oses =>
  let trace : List Hop :=
    match helem.trace with
    | none => []
    | some hops => hops.map (fun hp =>
        { host := hp.host, ip := hp.ipaddr, rtt := hp.rtt, ttl := hp.ttl })
  let host_instance : Host :=
    { state := some state, reason := some reason, reason_ttl := some rttlInt,
      start_time_slot := some (datetime_fromtimestamp stInt),
      end_time_slot := some (datetime_fromtimestamp etInt),
      ipv4 := ipv4, ipv6 := ipv6, fingerprint := fingerprint,
      hostnames := hostnames, ports := ports, oses := oses, trace := trace,
      scripts := [] }
  match helem.hostscript with
  | none => .ok host_instance
  | some scrs => parseHostScripts host_instance scrs

/-- The `for host in self._xml_tree.findall('.//host')` loop: any failing
host aborts the whole parse. -/
def parseHostsLoop : List HostElem → Except PyExc (List Host)
  | [] => .ok []
  | h :: rest =>
    match parseHost h with
    | .error e => .error e
    | .ok host =>
      match parseHostsLoop rest with
      | .error e => .error e
      | .ok r => .ok (host :: r)

/-- The `<scaninfo>` loop: protocol keyed to (type, numservices, services),
all read unguarded. -/
def parseScanInfos (acc : List (String × (String × String × String))) :
    List ScanInfoElem → Except PyExc (List (String × (String × String × String)))
  | [] => .ok acc
  | si :: rest =>
    match getAttr si.protocol "protocol" with
    | .error e => .error e
    | .ok proto =>
      match getAttr si.type "type" with
      | .error e => .error e
      | .ok ty =>
        match getAttr si.numservices "numservices" with
        | .error e => .error e
        | .ok ns =>
          match getAttr si.services "services" with
          | .error e => .error e
          | .ok svs => parseScanInfos (dictSet acc proto (ty, ns, svs)) rest

/-- The optional verbosity/debugging elements: when present, their `level`
attribute is read unguarded. -/
def levelAttr : Option (Option String) → Except PyExc (Option String)
  | none => .ok none
  | some lvAttr =>
    match getAttr lvAttr "level" with
    | .error e => .error e
    | .ok lv => .ok (some lv)

/-- `XMLParser._parse` over an already-tree-shaped report (the
`ET.fromstring` text-level step is outside the model): general information
first — the `finished` and `hosts` blocks are mandatory (an absent element
makes `.attrib` raise `AttributeError`), scan-info, verbosity/debug — then
`NmapScanResult` construction (timestamp and level setters convert), then
the host loop.  Any error anywhere aborts the whole parse: no partial
result exists. -/
def xmlparser_parse (doc : NmapXMLDocument) : Except PyExc NmapScanResult :=
  match doc.finished with
  | none => .error (.attributeError "'NoneType' object has no attribute 'attrib'")
  | some fin =>
  match doc.hostsElem with
  | none => .error (.attributeError "'NoneType' object has no attribute 'attrib'")
  | some hinfo =>
  match parseScanInfos [] doc.scaninfos with
  | .error e => .error e
  | .ok scan_info =>
  match levelAttr doc.verbose with
  | .error e => .error e
  | .ok verboseRaw =>
  match levelAttr doc.debugging with
  | .error e => .error e
  | .ok debugRaw =>
  match optIntField doc.start with
  | .error e => .error e
  | .ok stTs =>
  match optIntField fin.time with
  | .error e => .error e
  | .ok endTs =>
  match optIntField verboseRaw with
  | .error e => .error e
  | .ok vb =>
  match optIntField debugRaw with
  | .error e => .error e
  | .ok db =>
  match parseHostsLoop doc.hosts with
  | .error e => .error e
  | .ok hosts =>
  .ok { scanner := doc.scanner, arguments := doc.args, version := doc.version,
        summary := fin.summary, exit_status := fin.exit_status,
        start_timestamp := stTs, start_datetime := stTs.map datetime_fromtimestamp,
        end_timestamp := endTs, end_datetime := endTs.map datetime_fromtimestamp,
        elapsed := fin.elapsed, hosts_up := hinfo.up, hosts_down := hinfo.down,
        num_hosts := hinfo.total, scan_info := scan_info, verbose := vb,
        debug := db, hosts := hosts }

theorem scanAddresses_no_ip {l : List AddressElem}
    (hbad : ∀ a ∈ l, a.addrtype ≠ some "ipv4" ∧ a.addrtype ≠ some "ipv6") :
    ∀ v4 v6 : Option String,
      (∃ e, scanAddresses l v4 v6 = .error e) ∨ scanAddresses l v4 v6 = .ok (v4, v6) := by
  induction l with
  | nil => intro v4 v6; exact Or.inr rfl
  | cons a rest ih =>
    intro v4 v6
    obtain ⟨h4, h6⟩ := hbad a (by simp)
    cases ht : getAttr a.addrtype "addrtype" with
    | error e => exact Or.inl ⟨e, by simp [scanAddresses, ht]⟩
    | ok t =>
      have ht4 : t ≠ "ipv4" := by
        intro he
        subst he
        cases hat : a.addrtype with
        | none => simp [getAttr, hat] at ht
        | some s => simp [getAttr, hat] at ht; exact h4 (by rw [hat, ht])
      have ht6 : t ≠ "ipv6" := by
        intro he
        subst he
        cases hat : a.addrtype with
        | none => simp [getAttr, hat] at ht
        | some s => simp [getAttr, hat] at ht; exact h6 (by rw [hat, ht])
      have hrec := ih (fun a ha => hbad a (List.mem_cons_of_mem _ ha)) v4 v6
      rcases hrec with ⟨e, he⟩ | hok
      · exact Or.inl ⟨e, by simp [scanAddresses, ht, if_neg ht4, if_neg ht6, he]⟩
      · exact Or.inr (by simp [scanAddresses, ht, if_neg ht4, if_neg ht6, hok])

theorem parseHost_error_of_no_ip {h : HostElem}
    (hbad : ∀ a ∈ h.addresses, a.addrtype ≠ some "ipv4" ∧ a.addrtype ≠ some "ipv6") :
    ∃ e, parseHost h = .error e := by
  cases h1 : getAttr h.starttime "starttime" with
  | error e => exact ⟨e, by simp [parseHost, h1]⟩
  | ok starttime =>
  cases h2 : getAttr h.endtime "endtime" with
  | error e => exact ⟨e, by simp [parseHost, h1, h2]⟩
  | ok endtime =>
  cases h3 : h.status with
  | none => exact ⟨.xmlParsingError "Could not get status from host",
      by simp [parseHost, h1, h2, h3]⟩
  | some status =>
  cases h4 : getAttr status.state "state" with
  | error e => exact ⟨e, by simp [parseHost, h1, h2, h3, h4]⟩
  | ok state =>
  cases h5 : getAttr status.reason "reason" with
  | error e => exact ⟨e, by simp [parseHost, h1, h2, h3, h4, h5]⟩
  | ok reason =>
  cases h6 : getAttr status.reason_ttl "reason_ttl" with
  | error e => exact ⟨e, by simp [parseHost, h1, h2, h3, h4, h5, h6]⟩
  | ok reason_ttl =>
  by_cases h7 : h.addresses.isEmpty
  · exact ⟨.xmlParsingError "Could not be able to parse host address",
      by simp [parseHost, h1, h2, h3, h4, h5, h6, h7]⟩
  · rcases scanAddresses_no_ip hbad none none with ⟨e, he⟩ | hok
    · exact ⟨e, by simp [parseHost, h1, h2, h3, h4, h5, h6, h7, he]⟩
    · exact ⟨.xmlParsingError "Cannot parse host that no IPv4 nor IPv6 address",
        by simp [parseHost, h1, h2, h3, h4, h5, h6, h7, hok]⟩

theorem parseHostsLoop_error {hs : List HostElem} {h : HostElem}
    (hmem : h ∈ hs) (herr : ∃ e, parseHost h = .error e) :
    ∃ e, parseHostsLoop hs = .error e := by
  induction hs with
  | nil => cases hmem
  | cons h0 rest ih =>
    cases hp : parseHost h0 with
    | error e => exact ⟨e, by simp [parseHostsLoop, hp]⟩
    | ok host =>
      rcases List.mem_cons.mp hmem with rfl | hmem'
      · obtain ⟨e, he⟩ := herr
        rw [hp] at he
        cases he
      · obtain ⟨e, he⟩ := ih hmem'
        exact ⟨e, by simp [parseHostsLoop, hp, he]⟩

/-- C6: for every report in which some host element has neither an IPv4
nor an IPv6 address record, ingestion fails with an error and never
returns a ScanResult: the failure covers the whole document, and no
partial result containing previously parsed hosts is handed back. -/
theorem c6_missing_address_fails (doc : NmapXMLDocument)
    (hbad : ∃ h ∈ doc.hosts, ∀ a ∈ h.addresses,
      a.addrtype ≠ some "ipv4" ∧ a.addrtype ≠ some "ipv6") :
    (∃ e, xmlparser_parse doc = .error e) ∧
    ∀ r, xmlparser_parse doc ≠ .ok r := by
  obtain ⟨h, hmem, hnoip⟩ := hbad
  have hfail : ∃ e, xmlparser_parse doc = .error e := by
    cases g1 : doc.finished with
    | none => exact ⟨.attributeError "'NoneType' object has no attribute 'attrib'",
        by simp [xmlparser_parse, g1]⟩
    | some fin =>
    cases g2 : doc.hostsElem with
    | none => exact ⟨.attributeError "'NoneType' object has no attribute 'attrib'",
        by simp [xmlparser_parse, g1, g2]⟩
    | some hinfo =>
    cases g3 : parseScanInfos [] doc.scaninfos with
    | error e => exact ⟨e, by simp [xmlparser_parse, g1, g2, g3]⟩
    | ok scan_info =>
    cases g4 : levelAttr doc.verbose with
    | error e => exact ⟨e, by simp [xmlparser_parse, g1, g2, g3, g4]⟩
    | ok verboseRaw =>
    cases g5 : levelAttr doc.debugging with
    | error e => exact ⟨e, by simp [xmlparser_parse, g1, g2, g3, g4, g5]⟩
    | ok debugRaw =>
    cases g6 : optIntField doc.start with
    | error e => exact ⟨e, by simp [xmlparser_parse, g1, g2, g3, g4, g5, g6]⟩
    | ok stTs =>
    cases g7 : optIntField fin.time with
    | error e => exact ⟨e, by simp [xmlparser_parse, g1, g2, g3, g4, g5, g6, g7]⟩
    | ok endTs =>
    cases g8 : optIntField verboseRaw with
    | error e => exact ⟨e, by simp [xmlparser_parse, g1, g2, g3, g4, g5, g6, g7, g8]⟩
    | ok vb =>
    cases g9 : optIntField debugRaw with
    | error e => exact ⟨e, by simp [xmlparser_parse, g1, g2, g3, g4, g5, g6, g7, g8, g9]⟩
    | ok db =>
    obtain ⟨e, he⟩ := parseHostsLoop_error hmem (parseHost_error_of_no_ip hnoip)
    exact ⟨e, by simp [xmlparser_parse, g1, g2, g3, g4, g5, g6, g7, g8, g9, he]⟩
  refine ⟨hfail, ?_⟩
  intro r hr
  obtain ⟨e, he⟩ := hfail
  rw [hr] at he
  cases he

/-- A host element whose only address record is a MAC address. -/
def badAddressHost : HostElem :=
  { starttime := some "100", endtime := some "200",
    status := some { state := some "up", reason := some "echo-reply", reason_ttl := some "64" },
    addresses := [{ addrtype := some "mac", addr := some "AA:BB:CC:DD:EE:FF" }],
    hostnames := none, osfingerprint := none, ports := none, os := none,
    trace := none, hostscript := none }

/-- An otherwise well-formed report containing `badAddressHost`. -/
def badAddressDoc : NmapXMLDocument :=
  { scanner := some "nmap", args := some "-sS", start := some "1000",
    version := some "7.92",
    finished := some { time := some "2000", elapsed := some "1.05", summary := some "done", exit_status := some "success" },
    hostsElem := some { up := some "1", down := some "0", total := some "1" },
    scaninfos := [], verbose := none, debugging := none,
    hosts := [badAddressHost] }

/-- Witness for C6: the concrete report with a MAC-only host fails whole. -/
theorem c6_missing_address_fails_witness :
    (∃ e, xmlparser_parse badAddressDoc = .error e) ∧
    ∀ r, xmlparser_parse badAddressDoc ≠ .ok r :=
  c6_missing_address_fails badAddressDoc
    ⟨badAddressHost, by simp [badAddressDoc], by
      intro a ha
      simp only [badAddressHost, List.mem_singleton] at ha
      subst ha
      decide⟩
